import Mathlib

/-!
# CFEngine `libpromises/conversion.c`: a shallow embedding

Conventions of the embedding.

* A C string is the list of its characters before the terminating NUL
  (`CStr`); a `const char *` that may be `NULL` is an `Option CStr`.
* C integers are mathematical integers (`Int`); where the source computes in a
  fixed width the wrap-around is written out (`wrapLL`, `wrapLong`).
* Header constants and globals that `conversion.c` only uses (`CF_NOINT`,
  `CF_INFINITY`, `CFSTARTTIME`, `CF_HIGHINIT`, `CF_LOWINIT`, the width of
  `long`) are fields of `Env`; nothing is assumed about them unless a theorem
  says so.
* `Log(...)` calls do not influence any returned value; the level of the
  message a call emits is kept as the second component of `IntFromStringLog`.
* A `double` is an IEEE 754 binary64 value (`Dbl`), kept as an integer
  mantissa and a binary exponent; a decimal text and a product are rounded to
  the nearest value, ties to even (`Dbl.round`), in integer arithmetic.
-/

namespace Conversion

/-- A C string: the characters before the terminating NUL. -/
abbrev CStr := List Char

/-! ## Keyword tables -/

/-- The loop of `FindTypeInArray`: `i` is the loop counter, `haystack` the
entries from index `i` up to (not including) the terminating `NULL`. -/
def FindTypeInArray.loop (needle : CStr) (default_value : Int) : List CStr → Nat → Int
  | [], _ => default_value
  | h :: rest, i => if needle = h then (i : Int) else FindTypeInArray.loop needle default_value rest (i + 1)

/-- `int FindTypeInArray(const char *const haystack[], const char *needle,
int default_value, int null_value)`; `haystack` lists the entries before the
terminating `NULL`, and `strcmp(a, b) == 0` is equality of the strings. -/
def FindTypeInArray (haystack : List CStr) (needle : Option CStr)
    (default_value null_value : Int) : Int :=
  match needle with
  | none => null_value
  | some n => FindTypeInArray.loop n default_value haystack 0

/-- The table of `MeasurePolicyFromString`. -/
def MEASURE_POLICY_TYPES : List CStr :=
  ["average".toList, "sum".toList, "first".toList, "last".toList]

/-- `MeasurePolicy MeasurePolicyFromString(const char *s)`; the two enumerators
it passes on are declared in a header and are parameters here. -/
def MeasurePolicyFromString (MEASURE_POLICY_AVERAGE MEASURE_POLICY_NONE : Int)
    (s : Option CStr) : Int :=
  FindTypeInArray MEASURE_POLICY_TYPES s MEASURE_POLICY_AVERAGE MEASURE_POLICY_NONE

/-! ## Environment: header constants, globals, platform -/

/-- What `conversion.c` takes from its headers and from the running process. -/
structure Env where
  /-- The macro `CF_NOINT` (an `int`). -/
  CF_NOINT : Int
  /-- The macro `CF_INFINITY` (an `int`). -/
  CF_INFINITY : Int
  /-- The global `CFSTARTTIME` (a `time_t`). -/
  CFSTARTTIME : Int
  /-- The macro `CF_HIGHINIT` (a `long`). -/
  CF_HIGHINIT : Int
  /-- The macro `CF_LOWINIT` (a `long`). -/
  CF_LOWINIT : Int
  /-- Whether `long` has 64 bits (LP64) or 32 bits (ILP32, LLP64). -/
  long64 : Bool

def LLONG_MAX : Int := 9223372036854775807

def LLONG_MIN : Int := -9223372036854775808

def Env.LONG_MAX (E : Env) : Int := if E.long64 then 9223372036854775807 else 2147483647

def Env.LONG_MIN (E : Env) : Int := if E.long64 then -9223372036854775808 else -2147483648

/-- Two's-complement reduction of a value to `long long` (64 bits). -/
def wrapLL (x : Int) : Int := (x + 9223372036854775808) % 18446744073709551616 - 9223372036854775808

/-- The conversion `(long) x`: two's-complement reduction to the width of `long`. -/
def wrapLong (E : Env) (x : Int) : Int :=
  if E.long64 then (x + 9223372036854775808) % 18446744073709551616 - 9223372036854775808
  else (x + 2147483648) % 4294967296 - 2147483648

/-- The constants of upstream CFEngine on an LP64 platform; the start time is
an arbitrary sample. -/
def upstream : Env :=
  { CF_NOINT := -678, CF_INFINITY := 999999999, CFSTARTTIME := 1700000000,
    CF_HIGHINIT := 999999, CF_LOWINIT := -999999, long64 := true }

/-- The same constants with a 32-bit `long`. -/
def upstream32 : Env := { upstream with long64 := false }

/-! ## `sscanf` -/

/-- The function `isspace` of the C locale. -/
def isspace (c : Char) : Bool :=
  c == ' ' || c == '\t' || c == '\n' || c == '\x0b' || c == '\x0c' || c == '\r'

/-- The function `isdigit`. -/
def isdigit (c : Char) : Bool := decide ('0' ≤ c) && decide (c ≤ '9')

/-- Value of a run of decimal digits, most significant first. -/
def decVal (ds : List Char) : Nat := ds.foldl (fun a c => 10 * a + (c.toNat - 48)) 0

/-- Saturation of `x` to `[lo, hi]`, as `strtol`/`strtoll` do on overflow. -/
def clamp (lo hi x : Int) : Int := if x < lo then lo else if hi < x then hi else x

/-- The optional sign of a number: whether it is `-`, and the input after it. -/
def scanSign : CStr → Bool × CStr
  | '-' :: t => (true, t)
  | '+' :: t => (false, t)
  | s => (false, s)

/-- One signed decimal conversion of `sscanf` (`%ld`, `%lld`) into a type with
range `[lo, hi]`: skip white space, take an optional sign and the longest run
of digits. `none` is a matching failure (no digit); otherwise the value and the
unread rest of the input. The value of a run too large for the type is the
nearest bound, as in glibc, which converts with `strtol`/`strtoll`. -/
def scanInt (lo hi : Int) (s : CStr) : Option (Int × CStr) :=
  let body := scanSign (s.dropWhile isspace)
  let ds := body.2.takeWhile isdigit
  if ds.isEmpty then none
  else
    let v : Int := (decVal ds : Int)
    some (clamp lo hi (if body.1 then -v else v), body.2.dropWhile isdigit)

/-- What `sscanf(s, "%lld%c %c", &ll, &quantifier, &remainder)` leaves behind:
its return value and the variables it has assigned (`none`: not assigned). -/
structure Scan3 where
  ret : Int
  ll : Option Int
  quantifier : Option Char
  remainder : Option Char
deriving DecidableEq, Repr

/-- `sscanf(s, "%lld%c %c", ...)`: `EOF` (-1) when the input ends before the
first conversion, 0 when no number is found, else the number of conversions
done. `%c` takes the next character whatever it is and fails at the end of the
input; the blank in the format skips any run of white space. -/
def sscanf_lld_c_c (s : CStr) : Scan3 :=
  match s.dropWhile isspace with
  | [] => ⟨-1, none, none, none⟩
  | _ :: _ =>
    match scanInt LLONG_MIN LLONG_MAX s with
    | none => ⟨0, none, none, none⟩
    | some (v, rest) =>
      match rest with
      | [] => ⟨1, some v, none, none⟩
      | q :: rest2 =>
        match rest2.dropWhile isspace with
        | [] => ⟨2, some v, some q, none⟩
        | r :: _ => ⟨3, some v, some q, some r⟩

/-- `sscanf(s, "%ld", &l)`: the return value and the value assigned, if any. -/
def sscanf_ld (E : Env) (s : CStr) : Int × Option Int :=
  match s.dropWhile isspace with
  | [] => (-1, none)
  | _ :: _ =>
    match scanInt E.LONG_MIN E.LONG_MAX s with
    | none => (0, none)
    | some (v, _) => (1, some v)

/-! ## `IntFromString` -/

/-- Levels of the messages `IntFromString` logs. -/
inductive LogLevel
  | LOG_LEVEL_ERR
  | LOG_LEVEL_VERBOSE
deriving DecidableEq, Repr

/-- The `switch (quantifier)` of `IntFromString` (reached with `ret == 2`):
`none` is the early `return CF_NOINT`, otherwise the new value of `ll` (the
product reduced to `long long`), each with the message logged, if any. -/
def applyQuantifier (ll : Int) (quantifier : Char) : Option Int × Option LogLevel :=
  if quantifier = 'k' then (some (wrapLL (ll * 1000)), none)
  else if quantifier = 'K' then (some (wrapLL (ll * 1024)), none)
  else if quantifier = 'm' then (some (wrapLL (ll * (1000 * 1000))), none)
  else if quantifier = 'M' then (some (wrapLL (ll * (1024 * 1024))), none)
  else if quantifier = 'g' then (some (wrapLL (ll * (1000 * 1000 * 1000))), none)
  else if quantifier = 'G' then (some (wrapLL (ll * (1024 * 1024 * 1024))), none)
  else if quantifier = '%' then
    if ll < 0 ∨ ll > 100 then (none, some LogLevel.LOG_LEVEL_ERR)
    else (some (wrapLL (ll * (-1))), none)
  else if quantifier = ' ' then (some ll, none)
  else (some ll, some LogLevel.LOG_LEVEL_VERBOSE)

/-- The end of `IntFromString`: saturation of `ll` to the range of `long`,
then `return (long) ll`. -/
def clampToLong (E : Env) (ll : Int) : Int × List LogLevel :=
  if ll < E.LONG_MIN then (E.LONG_MIN, [LogLevel.LOG_LEVEL_VERBOSE])
  else if ll > E.LONG_MAX then (E.LONG_MAX, [LogLevel.LOG_LEVEL_VERBOSE])
  else (wrapLong E ll, [])

/-- What follows the `switch`: the early `return CF_NOINT` of an out-of-range
percentage, or the saturation of the scaled `ll`. -/
def afterSwitch (E : Env) : Option Int × Option LogLevel → Int × List LogLevel
  | (none, lvl) => (E.CF_NOINT, lvl.toList)
  | (some ll2, lvl) => ((clampToLong E ll2).1, lvl.toList ++ (clampToLong E ll2).2)

/-- `long IntFromString(const char *s)` with the levels of the messages it
logs, in order. -/
def IntFromStringLog (E : Env) (s : Option CStr) : Int × List LogLevel :=
  match s with
  | none => (E.CF_NOINT, [])
  | some s =>
    if s = "inf".toList then (wrapLong E E.CF_INFINITY, [])
    else if s = "now".toList then (wrapLong E E.CFSTARTTIME, [])
    else
      let sc := sscanf_lld_c_c s
      -- long long ll = CF_NOINT, overwritten when the first conversion succeeds
      let ll : Int := sc.ll.getD E.CF_NOINT
      if sc.ret < 1 ∨ ll = E.CF_NOINT then
        let lvl := if '$' ∈ s then LogLevel.LOG_LEVEL_VERBOSE else LogLevel.LOG_LEVEL_ERR
        let r := clampToLong E ll
        (r.1, lvl :: r.2)
      else if sc.ret = 3 then
        let lvl := if sc.quantifier = some '$' then LogLevel.LOG_LEVEL_VERBOSE
                   else LogLevel.LOG_LEVEL_ERR
        let r := clampToLong E E.CF_NOINT
        (r.1, lvl :: r.2)
      else if sc.ret = 1 then clampToLong E ll
      else
        match sc.quantifier with
        | none => clampToLong E ll
        | some q => afterSwitch E (applyQuantifier ll q)

/-- `long IntFromString(const char *s)`: the returned value. -/
def IntFromString (E : Env) (s : Option CStr) : Int := (IntFromStringLog E s).1

/-! ## `IntegerRangeFromString` -/

/-- Modelled from the spec: `SplitString` of `item_lib.c`, which is not among
the sources at hand; the spec has the range "split on a single comma" into its
substrings. The pieces between the occurrences of `sep`, in order; a string
without `sep` is its own single piece. -/
def SplitString : CStr → Char → List CStr
  | [], _ => [[]]
  | c :: t, sep =>
    if c = sep then [] :: SplitString t sep
    else
      match SplitString t sep with
      | [] => [[c]]
      | p :: ps => (c :: p) :: ps

/-- `bool IntegerRangeFromString(const char *intrange, long *min_out, long
*max_out)`. The arguments `min_out`, `max_out` are the values behind the two
pointers before the call; the result is the returned flag with the values
behind them after it. `none`: the call dereferences `split->next == NULL`
(a range without a comma). -/
def IntegerRangeFromString (E : Env) (intrange : Option CStr) (min_out max_out : Int) :
    Option (Bool × Int × Int) :=
  match intrange with
  | none => some (true, E.CF_NOINT, E.CF_NOINT)
  | some r =>
    match SplitString r ',' with
    | first :: second :: _ =>
      -- long lmax = CF_LOWINIT, lmin = CF_HIGHINIT, kept when sscanf assigns nothing
      let lmin : Int := (sscanf_ld E first).2.getD E.CF_HIGHINIT
      let lmax : Int :=
        if second = "inf".toList then wrapLong E E.CF_INFINITY
        else (sscanf_ld E second).2.getD E.CF_LOWINIT
      if lmin = E.CF_HIGHINIT ∨ lmax = E.CF_LOWINIT then some (false, min_out, max_out)
      else some (true, lmin, lmax)
    | _ => none

/-! ## Vocabulary of the statements -/

/-- The decimal text of an integer: a `-` for a negative one, then the digits
of the magnitude without leading zeros (`toString`). -/
def intText : Int → CStr
  | Int.ofNat m => Nat.toDigits 10 m
  | Int.negSucc m => '-' :: Nat.toDigits 10 (m + 1)

/-- The scale the specification assigns to each quantifier character. -/
def specMultiplier (q : Char) : Option Int :=
  if q = 'k' then some 1000
  else if q = 'K' then some 1024
  else if q = 'm' then some 1000000
  else if q = 'M' then some (1024 ^ 2)
  else if q = 'g' then some (10 ^ 9)
  else if q = 'G' then some (1024 ^ 3)
  else none

/-- The value is representable as a `long`. -/
def Env.inLong (E : Env) (x : Int) : Prop := E.LONG_MIN ≤ x ∧ x ≤ E.LONG_MAX

instance (E : Env) (x : Int) : Decidable (E.inLong x) :=
  inferInstanceAs (Decidable (E.LONG_MIN ≤ x ∧ x ≤ E.LONG_MAX))

/-- The sign characters `sscanf` accepts in front of the digits of a number. -/
def IsSign (sg : CStr) : Prop := sg = [] ∨ sg = ['-'] ∨ sg = ['+']

/-- The integer-literal grammar of the specification,
`-?[0-9]+[kKmMgG%]?( )?`, as a recogniser. -/
def strictIntLiteral (s : CStr) : Bool :=
  let body := match s with
    | '-' :: t => t
    | _ => s
  let tail := body.dropWhile isdigit
  !(body.takeWhile isdigit).isEmpty &&
    (tail == [] || tail == [' '] ||
      ['k', 'K', 'm', 'M', 'g', 'G', '%'].any (fun q => tail == [q] || tail == [q, ' ']))

/-- The tokens in which `IntFromString` finds a number and nothing it objects
to: white space, an optional sign `-` or `+`, a run of digits, and then either
nothing or one character of any kind followed by white space only. -/
def LooseIntLiteral (s : CStr) : Prop :=
  ∃ ws sg ds tail, s = ws ++ (sg ++ (ds ++ tail)) ∧ (∀ c ∈ ws, isspace c = true) ∧ IsSign sg ∧
    ds ≠ [] ∧ (∀ c ∈ ds, isdigit c = true) ∧
    (tail = [] ∨ ∃ q ws2, tail = q :: ws2 ∧ ∀ c ∈ ws2, isspace c = true)

/-- The tokens whose `$` stands where a quantifier would: white space, an
optional sign, a run of digits, `$`, white space. -/
def DollarQuantified (s : CStr) : Prop :=
  ∃ ws sg ds ws2, s = ws ++ (sg ++ (ds ++ '$' :: ws2)) ∧ (∀ c ∈ ws, isspace c = true) ∧
    IsSign sg ∧ ds ≠ [] ∧ (∀ c ∈ ds, isdigit c = true) ∧ ∀ c ∈ ws2, isspace c = true

/-! ## Data types and booleans -/

/-- The table `datatype_strings`. Its designated initialisers are indexed by
the enumerators of `DataType`, which a header outside these sources declares;
they are numbered here in the order of the initialiser, `CF_DATA_TYPE_STRING`
first and `CF_DATA_TYPE_NONE` last. -/
def datatype_strings : List CStr :=
  ["string".toList, "int".toList, "real".toList, "slist".toList, "ilist".toList,
   "rlist".toList, "option".toList, "olist".toList, "body".toList, "bundle".toList,
   "context".toList, "clist".toList, "irange".toList, "rrange".toList, "counter".toList,
   "data".toList, "none".toList]

/-- The enumerator `CF_DATA_TYPE_NONE`, the index of `"none"` in the table. -/
def CF_DATA_TYPE_NONE : Nat := 16

/-- The loop of `DataTypeFromString` over the entries from index `i` up to
`CF_DATA_TYPE_NONE` (not included). -/
def DataTypeFromString.loop (name : CStr) : List CStr → Nat → Nat
  | [], _ => CF_DATA_TYPE_NONE
  | entry :: rest, i => if entry = name then i else DataTypeFromString.loop name rest (i + 1)

/-- `DataType DataTypeFromString(const char *name)`. -/
def DataTypeFromString (name : CStr) : Nat :=
  DataTypeFromString.loop name (datatype_strings.take CF_DATA_TYPE_NONE) 0

/-- `const char *DataTypeToString(DataType type)`; `none` when
`assert(type < CF_DATA_TYPE_NONE)` fails. -/
def DataTypeToString (type : Nat) : Option CStr :=
  if type < CF_DATA_TYPE_NONE then datatype_strings.get? type else none

/-- `bool BooleanFromString(const char *s)` for a non-null `s`; `StringEqual`
is equality of the strings. -/
def BooleanFromString (s : CStr) : Bool :=
  if s = "false".toList ∨ s = "no".toList ∨ s = "off".toList then false else true

/-- `bool StringIsBoolean(const char *s)` for a non-null `s`. -/
def StringIsBoolean (s : CStr) : Bool :=
  decide (s = "true".toList ∨ s = "false".toList ∨ s = "yes".toList ∨ s = "no".toList ∨
    s = "on".toList ∨ s = "off".toList)

/-! ## Shell type and ACL inheritance -/

/-- The macro `CF_BOOL`; the assertions of `BooleanFromString` give its value. -/
def CF_BOOL : CStr := "true,false,yes,no,on,off".toList

/-- The enumeration `ShellType` (declared in a header). -/
inductive ShellType
  | SHELL_TYPE_NONE
  | SHELL_TYPE_USE
  | SHELL_TYPE_POWERSHELL
deriving DecidableEq, Repr

/-- The enumeration `AclInherit` (declared in a header). -/
inductive AclInherit
  | ACL_INHERIT_FALSE
  | ACL_INHERIT_TRUE
  | ACL_INHERIT_NOCHANGE
deriving DecidableEq, Repr

/-- `strchr(s, c)` for `c` other than NUL: the offset of the first `c` in `s`,
`none` for a `NULL` result. -/
def strchr : CStr → Char → Option Nat
  | [], _ => none
  | h :: t, c => if h = c then some 0 else (strchr t c).map (· + 1)

/-- The `switch (i)` of `ShellTypeFromString`; `cfBoolIndex & 1` is the parity
of `i - 3`. -/
def ShellTypeFromString.switch (i : Nat) : ShellType :=
  if i = 0 then ShellType.SHELL_TYPE_NONE
  else if i = 1 then ShellType.SHELL_TYPE_USE
  else if i = 2 then ShellType.SHELL_TYPE_POWERSHELL
  else if (i - 3) % 2 = 1 then ShellType.SHELL_TYPE_NONE else ShellType.SHELL_TYPE_USE

/-- The `for (i = 0;; i++)` loop of `ShellTypeFromString`: `start` is the rest
of `options`, `n` the offset `end - start` of the next comma. The test
`size == end - start && strncmp(string, start, end - start) == 0` compares
`string` with the `n` characters at `start`. Each round moves `start` forward,
so `fuel` rounds with `fuel` above the length of `start` are enough; `none`
is the loop cut short by `fuel`. -/
def ShellTypeFromString.loop (string : CStr) : Nat → CStr → Nat → Option ShellType
  | 0, _, _ => none
  | fuel + 1, start, i =>
    match strchr start ',' with
    | none => some ShellType.SHELL_TYPE_NONE
    | some n =>
      if string.length = n ∧ string.take n = start.take n then
        some (ShellTypeFromString.switch i)
      else ShellTypeFromString.loop string fuel (start.drop (n + 1)) (i + 1)

/-- `ShellType ShellTypeFromString(const char *string)`. -/
def ShellTypeFromString (string : Option CStr) : Option ShellType :=
  match string with
  | none => some ShellType.SHELL_TYPE_NONE
  | some s =>
    let options := "noshell,useshell,powershell,".toList ++ CF_BOOL
    ShellTypeFromString.loop s (options.length + 1) options 0

/-- The loop of `AclInheritFromString`, read as the one of
`ShellTypeFromString`. -/
def AclInheritFromString.loop (string : CStr) : Nat → CStr → Nat → Option AclInherit
  | 0, _, _ => none
  | fuel + 1, start, i =>
    match strchr start ',' with
    | none => some AclInherit.ACL_INHERIT_NOCHANGE
    | some n =>
      if string.length = n ∧ string.take n = start.take n then
        some (if i % 2 = 1 then AclInherit.ACL_INHERIT_FALSE else AclInherit.ACL_INHERIT_TRUE)
      else AclInheritFromString.loop string fuel (start.drop (n + 1)) (i + 1)

/-- `AclInherit AclInheritFromString(const char *string)`. -/
def AclInheritFromString (string : Option CStr) : Option AclInherit :=
  match string with
  | none => some AclInherit.ACL_INHERIT_NOCHANGE
  | some s =>
    let options := CF_BOOL ++ ",nochange".toList
    AclInheritFromString.loop s (options.length + 1) options 0

/-! ## `CommandArg0_bound` -/

/-- `strlcpy(dst, src, size)`: the string `dst` holds afterwards. With
`size == 0` nothing is written; otherwise at most `size - 1` characters of
`src` are copied and terminated. -/
def strlcpy (dst src : CStr) (size : Nat) : CStr :=
  if size = 0 then dst else src.take (size - 1)

/-- `strchrnul(s, c) - s`: the offset of the first `c` in `s`, or of the
terminating NUL. -/
def strchrnul (s : CStr) (c : Char) : Nat := (s.takeWhile (fun x => x != c)).length

/-- The string `trap` of `CommandArg0_bound`. -/
def commandArg0Trap : CStr := "BUG: COMMANDARG0_TOO_LONG".toList

/-- `size_t CommandArg0_bound(char *dst, const char *src, size_t dst_size)`.
`dst` is the string the destination holds before the call; the result is the
returned value with the string it holds afterwards. `SIZE_MAX` is the largest
`size_t`, the value of `(size_t) -1`. -/
def CommandArg0_bound (SIZE_MAX : Nat) (dst src : CStr) (dst_size : Nat) : Nat × CStr :=
  let start : CStr := if src.head? = some '"' then src.drop 1 else src
  let end_delimiter : Char := if src.head? = some '"' then '"' else ' '
  let len := strchrnul start end_delimiter
  if len < dst_size then (len, start.take len)
  else (SIZE_MAX, strlcpy dst commandArg0Trap dst_size)

/-! ## Users and groups -/

/-- The identity constants of the headers and the widths of `uid_t` and
`gid_t` (both unsigned); nothing is assumed about them unless a theorem says
so. -/
structure IdEnv where
  /-- The macro `CF_SAME_OWNER`. -/
  CF_SAME_OWNER : Nat
  /-- The macro `CF_UNKNOWN_OWNER`. -/
  CF_UNKNOWN_OWNER : Nat
  /-- The macro `CF_SAME_GROUP`. -/
  CF_SAME_GROUP : Nat
  /-- The macro `CF_UNKNOWN_GROUP`. -/
  CF_UNKNOWN_GROUP : Nat
  /-- The largest value of `uid_t`. -/
  UID_MAX : Nat
  /-- The largest value of `gid_t`. -/
  GID_MAX : Nat

/-- The constants of upstream CFEngine, `(uid_t) -1` and `(uid_t) -2` and the
same for groups, with 32-bit identities. -/
def upstreamIds : IdEnv :=
  { CF_SAME_OWNER := 4294967295, CF_UNKNOWN_OWNER := 4294967294,
    CF_SAME_GROUP := 4294967295, CF_UNKNOWN_GROUP := 4294967294,
    UID_MAX := 4294967295, GID_MAX := 4294967295 }

/-- One entry of a netgroup: the machine, user and domain that `getnetgrent`
hands out, each possibly `NULL`. -/
structure NetgrTriple where
  machine : Option CStr
  user : Option CStr
  domain : Option CStr
deriving DecidableEq, Repr

/-- The state of the host's directory, as the calls of `unix.c` and of the C
library show it. -/
structure Directory where
  /-- `GetUserID(name, &uid, level)`: the identity stored in `uid` when the
  call returns true, `none` when it returns false and leaves `uid` alone. -/
  GetUserID : CStr → Option Nat
  /-- `GetGroupID(name, &gid, level)`, likewise. -/
  GetGroupID : CStr → Option Nat
  /-- The entries that the calls of `getnetgrent` return, in order, after
  `setnetgrent(name)`. -/
  netgroup : CStr → List NetgrTriple

/-- The calls a conversion makes to its collaborators. -/
inductive DirCall
  | GetUserID (name : CStr)
  | GetGroupID (name : CStr)
  | setnetgrent (name : CStr)
  | getnetgrent
  | endnetgrent
  | PromiseRef
deriving DecidableEq, Repr

/-- The largest `uintmax_t`. -/
def UINTMAX_MAX : Nat := 18446744073709551615

/-- Modelled from the spec: `StringIsNumeric` of `string_lib.c`, which is not
among the sources at hand; the spec speaks of an "all-digit token". -/
def StringIsNumeric (s : CStr) : Bool := s.all isdigit

/-- `sscanf(s, "%ju", &tmp)`: the value assigned, `none` when the call does not
return 1. White space is skipped, a sign is taken, then the longest run of
digits; as `strtoumax` does, a run too large gives `UINTMAX_MAX` and a `-`
negates modulo `UINTMAX_MAX + 1`. -/
def sscanf_ju (s : CStr) : Option Nat :=
  let body := scanSign (s.dropWhile isspace)
  let ds := body.2.takeWhile isdigit
  if ds.isEmpty then none
  else if UINTMAX_MAX < decVal ds then some UINTMAX_MAX
  else if body.1 then some ((UINTMAX_MAX + 1 - decVal ds) % (UINTMAX_MAX + 1))
  else some (decVal ds)

/-- What `Str2Uid` and `Str2Gid` leave behind: the identity returned, the
string in the caller's name buffer (`none`: the pointer was `NULL`), and the
calls made, in order. -/
structure Resolved where
  id : Nat
  copy : Option CStr
  calls : List DirCall
deriving DecidableEq, Repr

/-- The `while` loop of `Str2Uid` over the entries `getnetgrent` still has to
hand out: it stops without a call once `uid` differs from `CF_UNKNOWN_OWNER`,
and with a last call when the entries are used up. `strcpy(usercopy, user)`
replaces the string in the buffer. -/
def Str2Uid.netgrent (I : IdEnv) (D : Directory) (pp : Bool) :
    List NetgrTriple → Nat → Option CStr → List DirCall → Resolved
  | [], uid, usercopy, calls =>
    if uid = I.CF_UNKNOWN_OWNER then ⟨uid, usercopy, calls ++ [DirCall.getnetgrent]⟩
    else ⟨uid, usercopy, calls⟩
  | t :: rest, uid, usercopy, calls =>
    if uid = I.CF_UNKNOWN_OWNER then
      match t.user with
      | none => Str2Uid.netgrent I D pp rest uid usercopy (calls ++ [DirCall.getnetgrent])
      | some user =>
        match D.GetUserID user with
        | some found =>
          Str2Uid.netgrent I D pp rest found (usercopy.map (fun _ => user))
            (calls ++ [DirCall.getnetgrent, DirCall.GetUserID user])
        | none =>
          Str2Uid.netgrent I D pp rest uid usercopy
            (calls ++ [DirCall.getnetgrent, DirCall.GetUserID user] ++
              (if pp then [DirCall.PromiseRef] else []))
    else ⟨uid, usercopy, calls⟩

/-- `uid_t Str2Uid(const char *uidbuff, char *usercopy, const Promise *pp)`,
the branch that is not `__hpux`. `usercopy` is the string in the caller's
buffer before the call, `pp` tells whether the promise pointer is non-null.
`none`: `assert(ret == 1)` fails. -/
def Str2Uid (I : IdEnv) (D : Directory) (uidbuff : CStr) (usercopy : Option CStr) (pp : Bool) :
    Option Resolved :=
  if uidbuff = "*".toList then some ⟨I.CF_SAME_OWNER, usercopy, []⟩
  else if StringIsNumeric uidbuff then
    match sscanf_ju uidbuff with
    | none => none
    | some tmp => some ⟨tmp % (I.UID_MAX + 1), usercopy, []⟩
  else if uidbuff.head? = some '+' then
    -- if (uidbuff[1] == '@') uidbuff++;
    let name : CStr := if uidbuff.get? 1 = some '@' then uidbuff.drop 1 else uidbuff
    let r := Str2Uid.netgrent I D pp (D.netgroup name) I.CF_UNKNOWN_OWNER usercopy
      [DirCall.setnetgrent name]
    some ⟨r.id, r.copy, r.calls ++ [DirCall.endnetgrent]⟩
  else
    match D.GetUserID uidbuff with
    | some found => some ⟨found, usercopy.map (fun _ => uidbuff), [DirCall.GetUserID uidbuff]⟩
    | none =>
      some ⟨I.CF_UNKNOWN_OWNER, usercopy,
        [DirCall.GetUserID uidbuff] ++ (if pp then [DirCall.PromiseRef] else [])⟩

/-- `gid_t Str2Gid(const char *gidbuff, char *groupcopy, const Promise *pp)`,
read as `Str2Uid`. -/
def Str2Gid (I : IdEnv) (D : Directory) (gidbuff : CStr) (groupcopy : Option CStr) (pp : Bool) :
    Option Resolved :=
  if gidbuff = "*".toList then some ⟨I.CF_SAME_GROUP, groupcopy, []⟩
  else if StringIsNumeric gidbuff then
    match sscanf_ju gidbuff with
    | none => none
    | some tmp => some ⟨tmp % (I.GID_MAX + 1), groupcopy, []⟩
  else
    match D.GetGroupID gidbuff with
    | some found => some ⟨found, groupcopy.map (fun _ => gidbuff), [DirCall.GetGroupID gidbuff]⟩
    | none =>
      some ⟨I.CF_UNKNOWN_GROUP, groupcopy,
        [DirCall.GetGroupID gidbuff] ++ (if pp then [DirCall.PromiseRef] else [])⟩

/-- An element of a `UidList` or of a `GidList`: the identity and the name
(`uidname`, `gidname`), `none` for the `NULL` that `xcalloc` leaves. -/
structure IdItem where
  id : Nat
  name : Option CStr
deriving DecidableEq, Repr

/-- `static void AddSimpleUidItem(UidList **uidlist, uid_t uid, char *uidname)`:
the new element goes to the end of the list and keeps a copy of `uidname` only
when `uid` is `CF_UNKNOWN_OWNER`. -/
def AddSimpleUidItem (I : IdEnv) (uidlist : List IdItem) (uid : Nat) (uidname : Option CStr) :
    List IdItem :=
  uidlist ++ [⟨uid, if uid = I.CF_UNKNOWN_OWNER then uidname else none⟩]

/-- `static void AddSimpleGidItem(GidList **gidlist, gid_t gid, char *gidname)`. -/
def AddSimpleGidItem (I : IdEnv) (gidlist : List IdItem) (gid : Nat) (gidname : Option CStr) :
    List IdItem :=
  gidlist ++ [⟨gid, if gid = I.CF_UNKNOWN_GROUP then gidname else none⟩]

/-- The `for` loop of `Rlist2UidList` over the remaining tokens: each round
empties `username` (`username[0] = '\0'`), resolves the token and appends the
element. The calls made are collected; `none` when a call of `Str2Uid` does
not return. -/
def Rlist2UidList.loop (I : IdEnv) (D : Directory) (pp : Bool) :
    List CStr → List IdItem → List DirCall → Option (List IdItem × List DirCall)
  | [], uidlist, calls => some (uidlist, calls)
  | token :: rest, uidlist, calls =>
    match Str2Uid I D token (some []) pp with
    | none => none
    | some r =>
      Rlist2UidList.loop I D pp rest (AddSimpleUidItem I uidlist r.id r.copy) (calls ++ r.calls)

/-- `UidList *Rlist2UidList(Rlist *uidnames, const Promise *pp)`: the list
built and the calls made. -/
def Rlist2UidList (I : IdEnv) (D : Directory) (uidnames : List CStr) (pp : Bool) :
    Option (List IdItem × List DirCall) :=
  match Rlist2UidList.loop I D pp uidnames [] [] with
  | none => none
  | some (uidlist, calls) =>
    if uidlist.isEmpty then some (AddSimpleUidItem I uidlist I.CF_SAME_OWNER none, calls)
    else some (uidlist, calls)

/-- The `for` loop of `Rlist2GidList`. -/
def Rlist2GidList.loop (I : IdEnv) (D : Directory) (pp : Bool) :
    List CStr → List IdItem → List DirCall → Option (List IdItem × List DirCall)
  | [], gidlist, calls => some (gidlist, calls)
  | token :: rest, gidlist, calls =>
    match Str2Gid I D token (some []) pp with
    | none => none
    | some r =>
      Rlist2GidList.loop I D pp rest (AddSimpleGidItem I gidlist r.id r.copy) (calls ++ r.calls)

/-- `GidList *Rlist2GidList(Rlist *gidnames, const Promise *pp)`. -/
def Rlist2GidList (I : IdEnv) (D : Directory) (gidnames : List CStr) (pp : Bool) :
    Option (List IdItem × List DirCall) :=
  match Rlist2GidList.loop I D pp gidnames [] [] with
  | none => none
  | some (gidlist, calls) =>
    if gidlist.isEmpty then some (AddSimpleGidItem I gidlist I.CF_SAME_GROUP none, calls)
    else some (gidlist, calls)

/-- A sample directory: users `alice` (1000), `bob` (1001) and `nobody` (with
the identity `(uid_t) -2`), group `staff` (50), and a netgroup `+admins` of
four entries. -/
def sampleDirectory : Directory :=
  { GetUserID := fun n =>
      if n = "alice".toList then some 1000
      else if n = "bob".toList then some 1001
      else if n = "nobody".toList then some 4294967294
      else none
    GetGroupID := fun n => if n = "staff".toList then some 50 else none
    netgroup := fun n =>
      if n = "+admins".toList then
        [⟨none, none, none⟩, ⟨none, some "carol".toList, none⟩,
         ⟨none, some "bob".toList, none⟩, ⟨none, some "alice".toList, none⟩]
      else if n = "+guests".toList then
        [⟨none, some "nobody".toList, none⟩, ⟨none, some "alice".toList, none⟩]
      else [] }

/-- The string begins with an integer as `sscanf` reads one: white space, an
optional sign, at least one digit, then anything. -/
def BeginsWithInteger (s : CStr) : Prop :=
  ∃ ws sg ds rest, s = ws ++ (sg ++ (ds ++ rest)) ∧ (∀ c ∈ ws, isspace c = true) ∧ IsSign sg ∧
    ds ≠ [] ∧ ∀ c ∈ ds, isdigit c = true

/-- The first argument of a command line, in the words of the comment on
`CommandArg0_bound`: after an opening double quote, the text up to the next
double quote or the end; otherwise the text up to the first space or the end. -/
def firstArgument : CStr → CStr
  | [] => []
  | c :: t => if c = '"' then t.takeWhile (fun x => x != '"') else (c :: t).takeWhile (fun x => x != ' ')

/-- The names handed to `GetUserID`, in the order of the calls. -/
def lookedUp (calls : List DirCall) : List CStr :=
  calls.filterMap (fun c => match c with
    | DirCall.GetUserID n => some n
    | _ => none)

/-- The identity with which an entry of a netgroup ends the loop of `Str2Uid`:
its user is not `NULL` and `GetUserID` finds for it an identity other than
`CF_UNKNOWN_OWNER`. -/
def resolvedId (I : IdEnv) (D : Directory) (t : NetgrTriple) : Option Nat :=
  match t.user with
  | none => none
  | some u =>
    match D.GetUserID u with
    | none => none
    | some found => if found = I.CF_UNKNOWN_OWNER then none else some found

/-! ## `CommandArg0`, dates -/

/-- The end of `CommandArg0`, `if (cut) *cut = 0`: the string in `arg` once it
is ended at the offset `cut`, when `strchr` has found one. -/
def CommandArg0.cut (arg : CStr) : Option Nat → CStr
  | some cut => arg.take cut
  | none => arg

/-- `const char *CommandArg0(const char *execstr)`: the string in the static
buffer `arg[CF_BUFSIZE]` that the call returns. `CF_BUFSIZE`, a macro of the
headers, is a parameter (at least 1, the size of an array). -/
def CommandArg0 (CF_BUFSIZE : Nat) (execstr : CStr) : CStr :=
  let start : CStr := if execstr.head? = some '"' then execstr.drop 1 else execstr
  let end_delimiter : Char := if execstr.head? = some '"' then '"' else ' '
  let arg := strlcpy [] start CF_BUFSIZE
  CommandArg0.cut arg (strchr arg end_delimiter)

/-- The conversion of a value to `int` (32 bits). -/
def wrapInt (x : Int) : Int := (x + 2147483648) % 4294967296 - 2147483648

/-- What `sscanf(s, "%d %s %d", &day, month, &year)` assigns: each of the three
is `none` when the call stops before it. `%d` is read as a `long` and stored in
an `int`; `%s` skips white space and takes the run of characters up to the
next white space, failing at the end of the input. -/
def sscanf_d_s_d (E : Env) (s : CStr) : Option Int × Option CStr × Option Int :=
  match scanInt E.LONG_MIN E.LONG_MAX s with
  | none => (none, none, none)
  | some (day, afterDay) =>
    let atWord := afterDay.dropWhile isspace
    let word := atWord.takeWhile (fun c => !isspace c)
    if word.isEmpty then (some (wrapInt day), none, none)
    else
      match scanInt E.LONG_MIN E.LONG_MAX (atWord.dropWhile (fun c => !isspace c)) with
      | none => (some (wrapInt day), some word, none)
      | some (year, _) => (some (wrapInt day), some word, some (wrapInt year))

/-- The loop of `Month2Int` over the entries of `MONTH_TEXT` from index `i`:
`strncmp(MONTH_TEXT[i], string, strlen(string)) == 0` holds when the entry
starts with `string`. -/
def Month2Int.loop (string : CStr) : List CStr → Nat → Int
  | [], _ => -1
  | entry :: rest, i =>
    if entry.take string.length = string then (i : Int) + 1
    else Month2Int.loop string rest (i + 1)

/-- `int Month2Int(const char *string)`; the table `MONTH_TEXT`, defined
outside these sources, is a parameter, its first 12 entries are read. -/
def Month2Int (MONTH_TEXT : List CStr) (string : Option CStr) : Int :=
  match string with
  | none => -1
  | some s => Month2Int.loop s (MONTH_TEXT.take 12) 0

/-- `bool CoarseLaterThan(const char *bigger, const char *smaller)`; `none`
when one of the two `sscanf` calls leaves a variable unassigned that the
comparisons then read. -/
def CoarseLaterThan (E : Env) (MONTH_TEXT : List CStr) (bigger smaller : CStr) : Option Bool :=
  match sscanf_d_s_d E smaller, sscanf_d_s_d E bigger with
  | (some day_small, some month_small, some year_small),
    (some day_big, some month_big, some year_big) =>
    if year_big < year_small then some false
    else
      let m_small := Month2Int MONTH_TEXT (some month_small)
      let m_big := Month2Int MONTH_TEXT (some month_big)
      if m_big < m_small then some false
      else if day_big < day_small ∧ m_big = m_small ∧ year_big = year_small then some false
      else some true
  | _, _ => none

/-- The table `MONTH_TEXT` of upstream CFEngine. -/
def upstreamMonths : List CStr :=
  ["January".toList, "February".toList, "March".toList, "April".toList, "May".toList,
   "June".toList, "July".toList, "August".toList, "September".toList, "October".toList,
   "November".toList, "December".toList]

/-! ## `DoubleFromString` -/

/-- A value of the C type `double` (IEEE 754 binary64), NaN apart, which no
input of the model produces. A finite value is `man * 2 ^ shift` in units of
`2 ^ (-1074)`, the smallest positive `double`, with `man < 2 ^ 53` and, when
`shift > 0`, `2 ^ 52 <= man`; `neg` is the sign bit. -/
inductive Dbl
  | fin (neg : Bool) (man : Nat) (shift : Nat)
  | inf (neg : Bool)
deriving DecidableEq, Repr

/-- Number of binary digits of `n`; `fuel` at least that number. -/
def bitLength.go : Nat → Nat → Nat
  | 0, _ => 0
  | fuel + 1, n => if n = 0 then 0 else bitLength.go fuel (n / 2) + 1

/-- Number of binary digits of `n`. -/
def bitLength (n : Nat) : Nat := bitLength.go n n

/-- The integer nearest to `num / den`, the even one of two that are equally
near. -/
def roundHalfEven (num den : Nat) : Nat :=
  let fl := num / den
  let rem := num % den
  if 2 * rem < den then fl
  else if den < 2 * rem then fl + 1
  else if fl % 2 = 0 then fl else fl + 1

/-- The `double` nearest to the exact value `p / q * 2 ^ sh` (in units of
`2 ^ (-1074)`, `q > 0`), ties to even, with the sign `neg`: the rounding of
`strtod` and of the arithmetic in the default rounding mode. A value beyond
the largest finite `double` becomes infinite. -/
def Dbl.round (neg : Bool) (p q sh : Nat) : Dbl :=
  if p = 0 then Dbl.fin neg 0 0
  else
    -- floor of the binary logarithm of p / q
    let k : Int := (bitLength p : Int) - (bitLength q : Int)
    let t : Int := if q * 2 ^ k.toNat ≤ p * 2 ^ (-k).toNat then k else k - 1
    -- the last binary digit kept is the one of weight 2 ^ s
    let s : Nat := (t + (sh : Int) - 52).toNat
    let man := roundHalfEven (p * 2 ^ (sh - s)) (q * 2 ^ (s - sh))
    let man2 : Nat := if man = 2 ^ 53 then 2 ^ 52 else man
    let s2 : Nat := if man = 2 ^ 53 then s + 1 else s
    if 2045 < s2 then Dbl.inf neg else Dbl.fin neg man2 s2

/-- The product `d * c` of a `double` and a positive integer constant. -/
def Dbl.mulNat : Dbl → Nat → Dbl
  | Dbl.fin neg man shift, c => Dbl.round neg (man * c) 1 shift
  | Dbl.inf neg, _ => Dbl.inf neg

/-- The product `d * -1`. -/
def Dbl.neg : Dbl → Dbl
  | Dbl.fin neg man shift => Dbl.fin (!neg) man shift
  | Dbl.inf neg => Dbl.inf (!neg)

/-- The comparison `d < 0`. -/
def Dbl.ltZero : Dbl → Bool
  | Dbl.fin neg man _ => neg && decide (man ≠ 0)
  | Dbl.inf neg => neg

/-- The comparison `d > 100`, that is `100 * 2 ^ 1074 < man * 2 ^ shift` for a
positive finite value, with the power of two common to both sides left out. -/
def Dbl.gtHundred : Dbl → Bool
  | Dbl.fin neg man shift =>
    !neg && decide (100 * 2 ^ (1074 - shift) < man * 2 ^ (shift - 1074))
  | Dbl.inf neg => !neg

/-- The exact value of a finite `double` in units of `2 ^ (-1074)`. -/
def Dbl.units : Dbl → Option Int
  | Dbl.fin neg man shift => some (if neg then -((man * 2 ^ shift : Nat) : Int) else (man * 2 ^ shift : Nat))
  | Dbl.inf _ => none

/-- Result of the `%lf` conversion of `sscanf`. -/
inductive ScanLf
  /-- No number at the start of the input: the call returns less than 1. -/
  | failure
  /-- A form of number this model leaves aside: `inf`, `nan`, hexadecimal, or
  an exponent mark without digits. -/
  | aside
  /-- The value assigned and the unread rest of the input. -/
  | value (d : Dbl) (rest : CStr)
deriving DecidableEq, Repr

/-- The number starts like `inf`, `nan` or a hexadecimal constant. -/
def startsAside : CStr → Bool
  | [] => false
  | c :: rest =>
    c == 'i' || c == 'I' || c == 'n' || c == 'N' ||
      (c == '0' && (rest.head? == some 'x' || rest.head? == some 'X'))

/-- The fraction of a decimal number: after a `.`, its digits and the rest;
without a `.`, no digits. -/
def scanFraction : CStr → CStr × CStr
  | '.' :: r => (r.takeWhile isdigit, r.dropWhile isdigit)
  | s => ([], s)

/-- The exponent part of a decimal number after its mantissa: `none` for an
exponent mark that no digit follows, otherwise the exponent and the rest. -/
def scanExponent : CStr → Option (Int × CStr)
  | [] => some (0, [])
  | c :: r =>
    if c = 'e' ∨ c = 'E' then
      let body := scanSign r
      let ds := body.2.takeWhile isdigit
      if ds.isEmpty then none
      else some (if body.1 then -(decVal ds : Int) else (decVal ds : Int),
        body.2.dropWhile isdigit)
    else some (0, c :: r)

/-- The `%lf` conversion of `sscanf`: white space, an optional sign, decimal
digits with an optional fraction and an optional exponent, at least one digit
before the exponent; the value is the exact one rounded to the nearest
`double`. -/
def scanDouble (s : CStr) : ScanLf :=
  let body := scanSign (s.dropWhile isspace)
  if startsAside body.2 then ScanLf.aside
  else
    let ints := body.2.takeWhile isdigit
    let frac := scanFraction (body.2.dropWhile isdigit)
    if ints.isEmpty && frac.1.isEmpty then ScanLf.failure
    else
      match scanExponent frac.2 with
      | none => ScanLf.aside
      | some (ex, rest) =>
        ScanLf.value
          (Dbl.round body.1 (decVal (ints ++ frac.1) * 10 ^ ex.toNat)
            (10 ^ frac.1.length * 10 ^ (-ex).toNat) 1074) rest

/-- What `sscanf(s, "%lf%c %c", &d, &quantifier, &remainder)` leaves behind,
as `Scan3` for `%lld`; `none` for a number the model leaves aside. -/
structure ScanD where
  ret : Int
  d : Option Dbl
  quantifier : Option Char
  remainder : Option Char
deriving DecidableEq, Repr

/-- `sscanf(s, "%lf%c %c", ...)`: the number, the character after it, and
the first character after the white space that follows that one. A return
value below 1 (0 or `EOF`) is given as 0. -/
def sscanf_lf_c_c (s : CStr) : Option ScanD :=
  match scanDouble s with
  | ScanLf.aside => none
  | ScanLf.failure => some ⟨0, none, none, none⟩
  | ScanLf.value v rest =>
    match rest with
    | [] => some ⟨1, some v, none, none⟩
    | q :: rest2 =>
      match rest2.dropWhile isspace with
      | [] => some ⟨2, some v, some q, none⟩
      | r :: _ => some ⟨3, some v, some q, some r⟩

/-- The `switch (quantifier)` of `DoubleFromString`: `none` is the
`return false` of a percentage out of range, otherwise the new value of `d`. -/
def applyDoubleQuantifier (d : Dbl) (quantifier : Char) : Option Dbl :=
  if quantifier = 'k' then some (d.mulNat 1000)
  else if quantifier = 'K' then some (d.mulNat 1024)
  else if quantifier = 'm' then some (d.mulNat (1000 * 1000))
  else if quantifier = 'M' then some (d.mulNat (1024 * 1024))
  else if quantifier = 'g' then some (d.mulNat (1000 * 1000 * 1000))
  else if quantifier = 'G' then some (d.mulNat (1024 * 1024 * 1024))
  else if quantifier = '%' then
    if d.ltZero = true ∨ d.gtHundred = true then none else some d.neg
  else some d

/-- `bool DoubleFromString(const char *s, double *value_out)` for a non-null
`s`: `value_out` is the value behind the pointer before the call, the result
the returned flag with the value behind it afterwards. `none`: the number in
`s` has a form the model of `%lf` leaves aside. -/
def DoubleFromString (s : CStr) (value_out : Dbl) : Option (Bool × Dbl) :=
  match sscanf_lf_c_c s with
  | none => none
  | some sc =>
    if sc.ret < 1 then some (false, value_out)
    else if sc.ret = 3 then some (false, value_out)
    else
      -- `d` is assigned when `ret >= 1` and `quantifier` when `ret >= 2`
      match sc.d with
      | none => some (false, value_out)
      | some d =>
        if sc.ret = 1 then some (true, d)
        else
          match sc.quantifier with
          | none => some (true, d)
          | some q =>
            match applyDoubleQuantifier d q with
            | none => some (false, value_out)
            | some d2 => some (true, d2)

/-- The text of the fraction of a decimal literal: nothing, or a point and
the digits after it. -/
def fractionText : Option CStr → CStr
  | none => []
  | some fr => '.' :: fr

/-- The text of a decimal literal: a sign, the digits before the point and,
when there is a point, the point and the digits after it. -/
def decimalText (sg ints : CStr) (frac : Option CStr) : CStr :=
  sg ++ (ints ++ fractionText frac)

/-- The `double` nearest to a decimal literal, the value `%lf` assigns. -/
def decimalDouble (sg ints : CStr) (frac : Option CStr) : Dbl :=
  Dbl.round (decide (sg = ['-'])) (decVal (ints ++ frac.getD [])) (10 ^ (frac.getD []).length) 1074

/-! ## Keyword tables: theorems -/

theorem FindTypeInArray.loop_absent (needle : CStr) (d : Int) :
    ∀ (hs : List CStr) (k : Nat), needle ∉ hs → FindTypeInArray.loop needle d hs k = d := by
  intro hs
  induction hs with
  | nil => intro k _; rfl
  | cons h rest ih =>
    intro k hmem
    have h1 : needle ≠ h := fun e => hmem (e ▸ List.mem_cons_self _ _)
    have h2 : needle ∉ rest := fun m => hmem (List.mem_cons_of_mem _ m)
    simp [FindTypeInArray.loop, h1, ih (k + 1) h2]

theorem FindTypeInArray.loop_first (needle : CStr) (d : Int) :
    ∀ (hs : List CStr) (k : Nat), needle ∈ hs →
      ∃ i : Nat, FindTypeInArray.loop needle d hs k = ((k + i : Nat) : Int) ∧
        hs.get? i = some needle ∧ ∀ j, j < i → hs.get? j ≠ some needle := by
  intro hs
  induction hs with
  | nil => intro k hmem; cases hmem
  | cons h rest ih =>
    intro k hmem
    by_cases e : needle = h
    · refine ⟨0, ?_, ?_, ?_⟩
      · simp [FindTypeInArray.loop, e]
      · simp [e]
      · intro j hj; omega
    · have hrest : needle ∈ rest := by
        rcases List.mem_cons.mp hmem with h0 | h0
        · exact absurd h0 e
        · exact h0
      obtain ⟨i, hi, hget, hmin⟩ := ih (k + 1) hrest
      refine ⟨i + 1, ?_, ?_, ?_⟩
      · simp only [FindTypeInArray.loop, if_neg e, hi]
        congr 1; omega
      · simpa using hget
      · intro j hj
        cases j with
        | zero => simpa using fun e2 : h = needle => e e2.symm
        | succ j => simpa using hmin j (by omega)

/-- C1: when the needle occurs in the table, `FindTypeInArray` returns the
smallest index whose keyword equals the needle, whatever the two defaults. -/
theorem FindTypeInArray_first_match (haystack : List CStr) (needle : CStr)
    (default_value null_value : Int) (hmem : needle ∈ haystack) :
    ∃ i : Nat, FindTypeInArray haystack (some needle) default_value null_value = (i : Int) ∧
      haystack.get? i = some needle ∧ ∀ j, j < i → haystack.get? j ≠ some needle := by
  obtain ⟨i, hi, hget, hmin⟩ := FindTypeInArray.loop_first needle default_value haystack 0 hmem
  exact ⟨i, by simpa [FindTypeInArray] using hi, hget, hmin⟩

theorem FindTypeInArray_first_match_witness :
    ∃ i : Nat, FindTypeInArray ["sum".toList, "last".toList, "sum".toList]
        (some "sum".toList) 7 9 = (i : Int) ∧
      ["sum".toList, "last".toList, "sum".toList].get? i = some "sum".toList ∧
      ∀ j, j < i → ["sum".toList, "last".toList, "sum".toList].get? j ≠ some "sum".toList :=
  FindTypeInArray_first_match _ _ 7 9 (by decide)

/-- C2: `FindTypeInArray` returns `null_value` for an absent needle and
`default_value` for a needle equal to no keyword; `MeasurePolicyFromString`
gives `MEASURE_POLICY_NONE` for `NULL` and `MEASURE_POLICY_AVERAGE` for an
unknown word. -/
theorem FindTypeInArray_defaults :
    (∀ (haystack : List CStr) (d z : Int), FindTypeInArray haystack none d z = z) ∧
    (∀ (haystack : List CStr) (needle : CStr) (d z : Int), needle ∉ haystack →
      FindTypeInArray haystack (some needle) d z = d) ∧
    (∀ AVERAGE NONE : Int, MeasurePolicyFromString AVERAGE NONE none = NONE) ∧
    (∀ (AVERAGE NONE : Int) (s : CStr), s ∉ MEASURE_POLICY_TYPES →
      MeasurePolicyFromString AVERAGE NONE (some s) = AVERAGE) := by
  refine ⟨fun _ _ _ => rfl, ?_, fun _ _ => rfl, ?_⟩
  · intro haystack needle d z h
    exact FindTypeInArray.loop_absent needle d haystack 0 h
  · intro A N s h
    exact FindTypeInArray.loop_absent s A MEASURE_POLICY_TYPES 0 h

theorem FindTypeInArray_defaults_witness :
    FindTypeInArray ["hourly".toList, "daily".toList] (some "weekly".toList) 2 5 = 2 ∧
    MeasurePolicyFromString 0 4 (some "median".toList) = 0 :=
  ⟨FindTypeInArray_defaults.2.1 _ _ 2 5 (by decide),
   FindTypeInArray_defaults.2.2.2 0 4 _ (by decide)⟩


/-! ## Decimal text and `sscanf`: lemmas -/

theorem digitChar_spec (m : Nat) (hm : m < 10) :
    isdigit (Nat.digitChar m) = true ∧ (Nat.digitChar m).toNat - 48 = m := by
  interval_cases m <;> exact ⟨by decide, by decide⟩

theorem decVal_snoc (ds : List Char) (c : Char) :
    decVal (ds ++ [c]) = 10 * decVal ds + (c.toNat - 48) := by
  simp [decVal, List.foldl_append]

theorem toDigitsCore_run : ∀ (fuel n : Nat) (tail : List Char), n < fuel →
    ∃ run : List Char, (∀ c ∈ run, isdigit c = true) ∧ run ≠ [] ∧ decVal run = n ∧
      Nat.toDigitsCore 10 fuel n tail = run ++ tail := by
  intro fuel
  induction fuel with
  | zero => intro n tail h; omega
  | succ fuel ih =>
    intro n tail hn
    have hlast := digitChar_spec (n % 10) (Nat.mod_lt _ (by decide))
    unfold Nat.toDigitsCore
    by_cases h0 : n / 10 = 0
    · refine ⟨[Nat.digitChar (n % 10)], ?_, by simp, ?_, by simp [h0]⟩
      · intro c hc
        rw [List.mem_singleton] at hc
        rw [hc]; exact hlast.1
      · have := decVal_snoc [] (Nat.digitChar (n % 10))
        simp only [List.nil_append] at this
        rw [this, hlast.2]
        simp [decVal]; omega
    · obtain ⟨run, hall, hne, hval, hrun⟩ := ih (n / 10) (Nat.digitChar (n % 10) :: tail) (by omega)
      refine ⟨run ++ [Nat.digitChar (n % 10)], ?_, by simp, ?_, by simp [h0, hrun]⟩
      · intro c hc
        rcases List.mem_append.mp hc with h | h
        · exact hall c h
        · rw [List.mem_singleton] at h; rw [h]; exact hlast.1
      · rw [decVal_snoc, hval, hlast.2]; omega

theorem toDigits_run (n : Nat) :
    Nat.toDigits 10 n ≠ [] ∧ (∀ c ∈ Nat.toDigits 10 n, isdigit c = true) ∧
      decVal (Nat.toDigits 10 n) = n := by
  obtain ⟨run, hall, hne, hval, hrun⟩ := toDigitsCore_run (n + 1) n [] (by omega)
  have e : Nat.toDigits 10 n = run := by simpa [Nat.toDigits] using hrun
  rw [e]; exact ⟨hne, hall, hval⟩

theorem intText_eq_toString (n : Int) : intText n = (toString n).toList := by
  cases n with
  | ofNat m => rfl
  | negSucc m => rfl

theorem isspace_cases {c : Char} (h : isspace c = true) :
    c = ' ' ∨ c = '\t' ∨ c = '\n' ∨ c = '\x0b' ∨ c = '\x0c' ∨ c = '\r' := by
  simp only [isspace, Bool.or_eq_true, beq_iff_eq] at h
  tauto

theorem isdigit_not_isspace {c : Char} (h : isdigit c = true) : isspace c = false := by
  cases hs : isspace c with
  | false => rfl
  | true =>
    rcases isspace_cases hs with e | e | e | e | e | e <;> subst e <;> revert h <;> decide

theorem isdigit_ne_minus {c : Char} (h : isdigit c = true) : c ≠ '-' := by
  intro e; subst e; revert h; decide

theorem isdigit_ne_plus {c : Char} (h : isdigit c = true) : c ≠ '+' := by
  intro e; subst e; revert h; decide

theorem scanSign_other (d : Char) (t : CStr) (hm : d ≠ '-') (hp : d ≠ '+') :
    scanSign (d :: t) = (false, d :: t) := by
  unfold scanSign
  split
  · rename_i heq; exact absurd (List.cons.inj heq).1 hm
  · rename_i heq; exact absurd (List.cons.inj heq).1 hp
  · rfl

theorem takeWhile_run (ds rest : CStr) (hd : ∀ c ∈ ds, isdigit c = true)
    (hr : ∀ c, rest.head? = some c → isdigit c = false) :
    (ds ++ rest).takeWhile isdigit = ds ∧ (ds ++ rest).dropWhile isdigit = rest := by
  have h1 : rest.takeWhile isdigit = [] ∧ rest.dropWhile isdigit = rest := by
    cases rest with
    | nil => simp
    | cons c t =>
      have := hr c rfl
      simp [List.takeWhile_cons, List.dropWhile_cons, this]
  rw [List.takeWhile_append_of_pos hd, List.dropWhile_append_of_pos hd, h1.1, h1.2]
  simp

theorem scanSign_run (sg ds rest : CStr) (hsg : IsSign sg) (hne : ds ≠ [])
    (hd : ∀ c ∈ ds, isdigit c = true) :
    scanSign (sg ++ (ds ++ rest)) = (decide (sg = ['-']), ds ++ rest) ∧
    (sg ++ (ds ++ rest)).dropWhile isspace = sg ++ (ds ++ rest) := by
  cases ds with
  | nil => exact absurd rfl hne
  | cons d ds' =>
    have hdd : isdigit d = true := hd d (List.mem_cons_self _ _)
    rcases hsg with e | e | e <;> subst e
    · refine ⟨?_, ?_⟩
      · simpa using scanSign_other d (ds' ++ rest) (isdigit_ne_minus hdd) (isdigit_ne_plus hdd)
      · simp [List.dropWhile_cons, isdigit_not_isspace hdd]
    · exact ⟨rfl, rfl⟩
    · exact ⟨rfl, rfl⟩

theorem scanInt_run (lo hi : Int) (ws sg ds rest : CStr) (hws : ∀ c ∈ ws, isspace c = true)
    (hsg : IsSign sg) (hne : ds ≠ [])
    (hd : ∀ c ∈ ds, isdigit c = true) (hr : ∀ c, rest.head? = some c → isdigit c = false) :
    scanInt lo hi (ws ++ (sg ++ (ds ++ rest))) =
      some (clamp lo hi (if sg = ['-'] then -(decVal ds : Int) else (decVal ds : Int)), rest) := by
  obtain ⟨htk, hdr⟩ := takeWhile_run ds rest hd hr
  obtain ⟨hs1, hs2⟩ := scanSign_run sg ds rest hsg hne hd
  have hemp : ds.isEmpty = false := by
    cases ds with
    | nil => exact absurd rfl hne
    | cons _ _ => rfl
  unfold scanInt
  simp only [List.dropWhile_append_of_pos hws, hs2, hs1, htk, hdr, hemp]
  simp

theorem dropWhile_space_run (ws sg ds rest : CStr) (hws : ∀ c ∈ ws, isspace c = true)
    (hsg : IsSign sg) (hne : ds ≠ []) (hd : ∀ c ∈ ds, isdigit c = true) :
    ∃ c t, (ws ++ (sg ++ (ds ++ rest))).dropWhile isspace = c :: t := by
  obtain ⟨_, hs2⟩ := scanSign_run sg ds rest hsg hne hd
  rw [List.dropWhile_append_of_pos hws, hs2]
  cases sg with
  | nil =>
    cases ds with
    | nil => exact absurd rfl hne
    | cons d t => exact ⟨d, _, rfl⟩
  | cons c t => exact ⟨c, _, rfl⟩


theorem sscanf_lld_c_c_one (ws sg ds : CStr) (hws : ∀ c ∈ ws, isspace c = true)
    (hsg : IsSign sg) (hne : ds ≠ []) (hd : ∀ c ∈ ds, isdigit c = true) :
    sscanf_lld_c_c (ws ++ (sg ++ ds)) =
      ⟨1, some (clamp LLONG_MIN LLONG_MAX
        (if sg = ['-'] then -(decVal ds : Int) else (decVal ds : Int))), none, none⟩ := by
  have hscan := scanInt_run LLONG_MIN LLONG_MAX ws sg ds [] hws hsg hne hd (by simp)
  obtain ⟨c, t, hct⟩ := dropWhile_space_run ws sg ds [] hws hsg hne hd
  simp only [List.append_nil] at hscan hct
  unfold sscanf_lld_c_c
  rw [hct]
  simp only [hscan]

theorem sscanf_lld_c_c_two (ws sg ds ws2 : CStr) (q : Char) (hws : ∀ c ∈ ws, isspace c = true)
    (hsg : IsSign sg) (hne : ds ≠ []) (hd : ∀ c ∈ ds, isdigit c = true)
    (hq : isdigit q = false) (hws2 : ∀ c ∈ ws2, isspace c = true) :
    sscanf_lld_c_c (ws ++ (sg ++ (ds ++ q :: ws2))) =
      ⟨2, some (clamp LLONG_MIN LLONG_MAX
        (if sg = ['-'] then -(decVal ds : Int) else (decVal ds : Int))), some q, none⟩ := by
  have hscan := scanInt_run LLONG_MIN LLONG_MAX ws sg ds (q :: ws2) hws hsg hne hd
    (by intro c hc; simp at hc; rw [← hc]; exact hq)
  obtain ⟨c, t, hct⟩ := dropWhile_space_run ws sg ds (q :: ws2) hws hsg hne hd
  have hall : ws2.dropWhile isspace = [] := by
    rw [List.dropWhile_eq_nil_iff]; exact hws2
  unfold sscanf_lld_c_c
  rw [hct]
  simp only [hscan, hall]

theorem sscanf_lld_c_c_three (ws sg ds ws2 rest : CStr) (q r : Char)
    (hws : ∀ c ∈ ws, isspace c = true)
    (hsg : IsSign sg) (hne : ds ≠ []) (hd : ∀ c ∈ ds, isdigit c = true)
    (hq : isdigit q = false) (hws2 : ∀ c ∈ ws2, isspace c = true) (hr : isspace r = false) :
    sscanf_lld_c_c (ws ++ (sg ++ (ds ++ q :: (ws2 ++ r :: rest)))) =
      ⟨3, some (clamp LLONG_MIN LLONG_MAX
        (if sg = ['-'] then -(decVal ds : Int) else (decVal ds : Int))), some q, some r⟩ := by
  have hscan := scanInt_run LLONG_MIN LLONG_MAX ws sg ds (q :: (ws2 ++ r :: rest)) hws hsg hne hd
    (by intro c hc; simp at hc; rw [← hc]; exact hq)
  obtain ⟨c, t, hct⟩ := dropWhile_space_run ws sg ds (q :: (ws2 ++ r :: rest)) hws hsg hne hd
  have hall : (ws2 ++ r :: rest).dropWhile isspace = r :: rest := by
    rw [List.dropWhile_append_of_pos hws2]
    simp [List.dropWhile_cons, hr]
  unfold sscanf_lld_c_c
  rw [hct]
  simp only [hscan, hall]

/-! ### Ranges -/
theorem wrapLL_of_range {x : Int} (h1 : LLONG_MIN ≤ x) (h2 : x ≤ LLONG_MAX) : wrapLL x = x := by
  unfold LLONG_MIN at h1; unfold LLONG_MAX at h2; unfold wrapLL; omega

theorem inLong_LL {E : Env} {x : Int} (h : E.inLong x) : LLONG_MIN ≤ x ∧ x ≤ LLONG_MAX := by
  unfold Env.inLong Env.LONG_MIN Env.LONG_MAX at h
  unfold LLONG_MIN LLONG_MAX
  cases hb : E.long64 <;> simp [hb] at h <;> omega

theorem wrapLong_of_inLong {E : Env} {x : Int} (h : E.inLong x) : wrapLong E x = x := by
  unfold Env.inLong Env.LONG_MIN Env.LONG_MAX at h
  unfold wrapLong
  cases hb : E.long64 <;> simp [hb] at h ⊢ <;> omega

theorem clampToLong_of_inLong {E : Env} {x : Int} (h : E.inLong x) :
    clampToLong E x = (x, []) := by
  have hw := wrapLong_of_inLong h
  unfold Env.inLong at h
  unfold clampToLong
  rw [if_neg (by omega), if_neg (by omega), hw]

theorem clamp_of_range {lo hi x : Int} (h1 : lo ≤ x) (h2 : x ≤ hi) : clamp lo hi x = x := by
  unfold clamp
  rw [if_neg (by omega), if_neg (by omega)]


/-! ## `IntFromString`: theorems -/

theorem not_keyword_of_scanned (s : CStr) (h : 1 ≤ (sscanf_lld_c_c s).ret) :
    s ≠ ['i', 'n', 'f'] ∧ s ≠ ['n', 'o', 'w'] := by
  constructor <;> intro e <;> subst e <;> revert h <;> decide

theorem IntFromStringLog_ret1 (E : Env) (s : CStr) (v : Int)
    (hsc : sscanf_lld_c_c s = ⟨1, some v, none, none⟩) (hv : v ≠ E.CF_NOINT) :
    IntFromStringLog E (some s) = clampToLong E v := by
  obtain ⟨h1, h2⟩ := not_keyword_of_scanned s (by simp [hsc])
  simp [IntFromStringLog, h1, h2, hsc, hv]

theorem IntFromStringLog_ret2 (E : Env) (s : CStr) (v : Int) (q : Char)
    (hsc : sscanf_lld_c_c s = ⟨2, some v, some q, none⟩) (hv : v ≠ E.CF_NOINT) :
    IntFromStringLog E (some s) =
      afterSwitch E (applyQuantifier v q) := by
  obtain ⟨h1, h2⟩ := not_keyword_of_scanned s (by simp [hsc])
  simp [IntFromStringLog, h1, h2, hsc, hv]

theorem IntFromStringLog_ret3 (E : Env) (s : CStr) (v : Int) (q r : Char)
    (hsc : sscanf_lld_c_c s = ⟨3, some v, some q, some r⟩) :
    (IntFromStringLog E (some s)).1 = (clampToLong E E.CF_NOINT).1 := by
  obtain ⟨h1, h2⟩ := not_keyword_of_scanned s (by simp [hsc])
  by_cases hv : v = E.CF_NOINT
  · simp [IntFromStringLog, h1, h2, hsc, hv]
  · simp [IntFromStringLog, h1, h2, hsc, hv]

theorem intText_shape (n : Int) :
    ∃ sg ds, intText n = sg ++ ds ∧ IsSign sg ∧ ds ≠ [] ∧ (∀ c ∈ ds, isdigit c = true) ∧
      (if sg = ['-'] then -(decVal ds : Int) else (decVal ds : Int)) = n := by
  cases n with
  | ofNat m =>
    obtain ⟨hne, hall, hval⟩ := toDigits_run m
    exact ⟨[], Nat.toDigits 10 m, rfl, Or.inl rfl, hne, hall, by simp [hval]⟩
  | negSucc m =>
    obtain ⟨hne, hall, hval⟩ := toDigits_run (m + 1)
    refine ⟨['-'], Nat.toDigits 10 (m + 1), rfl, Or.inr (Or.inl rfl), hne, hall, ?_⟩
    simp only [if_true, hval]
    exact (Int.negSucc_eq m).symm ▸ by push_cast; ring

theorem specMultiplier_cases {q : Char} {m : Int} (h : specMultiplier q = some m) :
    (q = 'k' ∧ m = 1000) ∨ (q = 'K' ∧ m = 1024) ∨ (q = 'm' ∧ m = 1000000) ∨
    (q = 'M' ∧ m = 1048576) ∨ (q = 'g' ∧ m = 1000000000) ∨ (q = 'G' ∧ m = 1073741824) := by
  unfold specMultiplier at h
  split_ifs at h with h1 h2 h3 h4 h5 h6 <;> simp at h <;> subst h <;> simp [*]

theorem applyQuantifier_scaled {q : Char} {m : Int} (h : specMultiplier q = some m) (v : Int) :
    applyQuantifier v q = (some (wrapLL (v * m)), none) := by
  rcases specMultiplier_cases h with ⟨e, e2⟩ | ⟨e, e2⟩ | ⟨e, e2⟩ | ⟨e, e2⟩ | ⟨e, e2⟩ | ⟨e, e2⟩ <;>
    subst e <;> subst e2 <;> simp [applyQuantifier]

theorem IntFromString_scaled (E : Env) (n : Int) (q : Char) (m : Int)
    (hq : specMultiplier q = some m) (hn : n ≠ E.CF_NOINT) (hr : E.inLong (n * m)) :
    IntFromString E (some (intText n ++ [q])) = n * m := by
  obtain ⟨sg, ds, hs, hsg, hne, hd, hval⟩ := intText_shape n
  have hL := inLong_LL hr
  have hm : 1 ≤ m := by
    rcases specMultiplier_cases hq with ⟨_, e⟩ | ⟨_, e⟩ | ⟨_, e⟩ | ⟨_, e⟩ | ⟨_, e⟩ | ⟨_, e⟩ <;> omega
  have hqd : isdigit q = false := by
    rcases specMultiplier_cases hq with ⟨e, _⟩ | ⟨e, _⟩ | ⟨e, _⟩ | ⟨e, _⟩ | ⟨e, _⟩ | ⟨e, _⟩ <;>
      subst e <;> decide
  have hnL : LLONG_MIN ≤ n ∧ n ≤ LLONG_MAX := by
    constructor
    · by_cases h0 : 0 ≤ n
      · unfold LLONG_MIN; omega
      · have : n * m ≤ n := by nlinarith
        omega
    · by_cases h0 : 0 ≤ n
      · have : n ≤ n * m := by nlinarith
        omega
      · unfold LLONG_MAX; omega
  have hsc := sscanf_lld_c_c_two [] sg ds [] q (by simp) hsg hne hd hqd (by simp)
  rw [hval, clamp_of_range hnL.1 hnL.2] at hsc
  have e : intText n ++ [q] = [] ++ (sg ++ (ds ++ [q])) := by simp [hs]
  unfold IntFromString
  rw [e, IntFromStringLog_ret2 E _ n q hsc hn, applyQuantifier_scaled hq, wrapLL_of_range hL.1 hL.2]
  simp [afterSwitch, clampToLong_of_inLong hr]

theorem IntFromString_plain (E : Env) (n : Int) (hn : n ≠ E.CF_NOINT) (hr : E.inLong n) :
    IntFromString E (some (intText n)) = n := by
  obtain ⟨sg, ds, hs, hsg, hne, hd, hval⟩ := intText_shape n
  have hL := inLong_LL hr
  have hsc := sscanf_lld_c_c_one [] sg ds (by simp) hsg hne hd
  rw [hval, clamp_of_range hL.1 hL.2] at hsc
  have e : intText n = [] ++ (sg ++ ds) := by simp [hs]
  unfold IntFromString
  rw [e, IntFromStringLog_ret1 E _ n hsc hn, clampToLong_of_inLong hr]

/-- C3: for an integer `n` other than `CF_NOINT` and a quantifier `q` among
`k K m M g G`, when `n` times the multiplier of `q` fits a `long` the text of
`n` followed by `q` gives exactly that product; the text of `n` alone gives
`n`; `"1K"` gives 1024 and `"1k"` gives 1000. -/
theorem IntFromString_quantifier_scaling (E : Env) (n : Int) (hn : n ≠ E.CF_NOINT) :
    (∀ (q : Char) (m : Int), specMultiplier q = some m → E.inLong (n * m) →
      IntFromString E (some (intText n ++ [q])) = n * m) ∧
    (E.inLong n → IntFromString E (some (intText n)) = n) ∧
    (E.CF_NOINT ≠ 1 → IntFromString E (some "1K".toList) = 1024 ∧
      IntFromString E (some "1k".toList) = 1000) := by
  refine ⟨fun q m hq hr => IntFromString_scaled E n q m hq hn hr,
    fun hr => IntFromString_plain E n hn hr, fun h1 => ⟨?_, ?_⟩⟩
  · have := IntFromString_scaled E 1 'K' 1024 (by decide) (Ne.symm h1)
      (by cases hb : E.long64 <;> simp [Env.inLong, Env.LONG_MIN, Env.LONG_MAX, hb])
    simpa using this
  · have := IntFromString_scaled E 1 'k' 1000 (by decide) (Ne.symm h1)
      (by cases hb : E.long64 <;> simp [Env.inLong, Env.LONG_MIN, Env.LONG_MAX, hb])
    simpa using this

theorem IntFromString_quantifier_scaling_witness :
    (intText (-3) ++ ['M'] = "-3M".toList ∧
      IntFromString upstream (some (intText (-3) ++ ['M'])) = -3 * 1024 ^ 2) ∧
    (intText 42 = "42".toList ∧ IntFromString upstream (some (intText 42)) = 42) ∧
    IntFromString upstream (some "1K".toList) = 1024 :=
  ⟨⟨by decide, (IntFromString_quantifier_scaling upstream (-3) (by decide)).1 'M' (1024 ^ 2)
      (by decide) (by decide)⟩,
   ⟨by decide, (IntFromString_quantifier_scaling upstream 42 (by decide)).2.1 (by decide)⟩,
   ((IntFromString_quantifier_scaling upstream 42 (by decide)).2.2 (by decide)).1⟩

theorem sscanf_lld_c_c_unassigned (s : CStr) (h : (sscanf_lld_c_c s).ret < 1) :
    (sscanf_lld_c_c s).ll = none := by
  cases hd : s.dropWhile isspace with
  | nil => simp [sscanf_lld_c_c, hd]
  | cons c t =>
    cases hs : scanInt LLONG_MIN LLONG_MAX s with
    | none => simp [sscanf_lld_c_c, hd, hs]
    | some p =>
      obtain ⟨v, rest⟩ := p
      exfalso
      cases rest with
      | nil => simp [sscanf_lld_c_c, hd, hs] at h
      | cons q rest2 =>
        cases hr : rest2.dropWhile isspace <;> simp [sscanf_lld_c_c, hd, hs, hr] at h

theorem IntFromStringLog_failed (E : Env) (s : CStr) (h1 : s ≠ ['i', 'n', 'f'])
    (h2 : s ≠ ['n', 'o', 'w'])
    (h : (sscanf_lld_c_c s).ret < 1 ∨ (sscanf_lld_c_c s).ll.getD E.CF_NOINT = E.CF_NOINT) :
    (IntFromStringLog E (some s)).1 = (clampToLong E E.CF_NOINT).1 := by
  have hll : (sscanf_lld_c_c s).ll.getD E.CF_NOINT = E.CF_NOINT := by
    rcases h with h | h
    · rw [sscanf_lld_c_c_unassigned s h]; rfl
    · exact h
  simp [IntFromStringLog, h1, h2, hll]

theorem IntFromString_percent_core (E : Env) (hneg : E.CF_NOINT < 0) (hfit : E.inLong E.CF_NOINT)
    (N : Int) :
    (0 ≤ N ∧ N ≤ 100 → IntFromString E (some (intText N ++ ['%'])) = -N) ∧
    (N < 0 ∨ 100 < N → IntFromString E (some (intText N ++ ['%'])) = E.CF_NOINT) := by
  obtain ⟨sg, ds, hs, hsg, hne, hd, hval⟩ := intText_shape N
  have hsc := sscanf_lld_c_c_two [] sg ds [] '%' (by simp) hsg hne hd (by decide) (by simp)
  rw [hval] at hsc
  have e : intText N ++ ['%'] = [] ++ (sg ++ (ds ++ ['%'])) := by simp [hs]
  obtain ⟨hk1, hk2⟩ := not_keyword_of_scanned _ (show 1 ≤ (sscanf_lld_c_c _).ret by rw [hsc]; simp)
  constructor
  · rintro ⟨h0, h100⟩
    have hv : clamp LLONG_MIN LLONG_MAX N = N :=
      clamp_of_range (by unfold LLONG_MIN; omega) (by unfold LLONG_MAX; omega)
    rw [hv] at hsc
    have hin : E.inLong (-N) := by
      unfold Env.inLong Env.LONG_MIN Env.LONG_MAX
      cases hb : E.long64 <;> simp <;> omega
    have hw : wrapLL (N * -1) = -N := by
      rw [wrapLL_of_range (by unfold LLONG_MIN; omega) (by unfold LLONG_MAX; omega)]; ring
    have hq : applyQuantifier N '%' = (some (wrapLL (N * -1)), none) := by
      have : ¬ (N < 0 ∨ N > 100) := by omega
      simp [applyQuantifier, this]
    unfold IntFromString
    rw [e, IntFromStringLog_ret2 E _ N '%' hsc (by omega), hq, hw]
    simp [afterSwitch, clampToLong_of_inLong hin]
  · intro hout
    have hv : clamp LLONG_MIN LLONG_MAX N < 0 ∨ 100 < clamp LLONG_MIN LLONG_MAX N := by
      unfold clamp LLONG_MIN LLONG_MAX
      split_ifs <;> omega
    unfold IntFromString
    rw [e]
    by_cases hc : clamp LLONG_MIN LLONG_MAX N = E.CF_NOINT
    · rw [IntFromStringLog_failed E _ hk1 hk2 (Or.inr (by rw [hsc]; exact hc)),
        clampToLong_of_inLong hfit]
    · have hq : applyQuantifier (clamp LLONG_MIN LLONG_MAX N) '%' =
          (none, some LogLevel.LOG_LEVEL_ERR) := by
        have : clamp LLONG_MIN LLONG_MAX N < 0 ∨ clamp LLONG_MIN LLONG_MAX N > 100 := hv
        simp [applyQuantifier, this]
      rw [IntFromStringLog_ret2 E _ _ '%' hsc hc, hq]
      rfl

/-- C4: the text of an integer `N` followed by `%` gives `-N` when
`0 <= N <= 100` and the failure value `CF_NOINT` when `N < 0` or `N > 100`, so
a percent input never gives a positive result; `"50%"` gives -50 and `"150%"`
fails. `CF_NOINT` is taken negative (upstream -678) and representable. -/
theorem IntFromString_percent (E : Env) (hneg : E.CF_NOINT < 0) (hfit : E.inLong E.CF_NOINT)
    (N : Int) :
    (0 ≤ N ∧ N ≤ 100 → IntFromString E (some (intText N ++ ['%'])) = -N) ∧
    (N < 0 ∨ 100 < N → IntFromString E (some (intText N ++ ['%'])) = E.CF_NOINT) ∧
    IntFromString E (some (intText N ++ ['%'])) ≤ 0 ∧
    IntFromString E (some "50%".toList) = -50 ∧
    IntFromString E (some "150%".toList) = E.CF_NOINT := by
  obtain ⟨h1, h2⟩ := IntFromString_percent_core E hneg hfit N
  have a := (IntFromString_percent_core E hneg hfit 50).1 (by omega)
  have b := (IntFromString_percent_core E hneg hfit 150).2 (by omega)
  refine ⟨h1, h2, ?_, by simpa using a, by simpa using b⟩
  by_cases h : 0 ≤ N ∧ N ≤ 100
  · rw [h1 h]; omega
  · rw [h2 (by omega)]; omega

theorem IntFromString_percent_witness :
    (intText 50 ++ ['%'] = "50%".toList ∧
      IntFromString upstream (some (intText 50 ++ ['%'])) = -50) ∧
    (intText 150 ++ ['%'] = "150%".toList ∧
      IntFromString upstream (some (intText 150 ++ ['%'])) = upstream.CF_NOINT) :=
  ⟨⟨by decide, (IntFromString_percent upstream (by decide) (by decide) 50).1 (by decide)⟩,
   ⟨by decide, (IntFromString_percent upstream (by decide) (by decide) 150).2.1 (by decide)⟩⟩

/-- C5: at `"9223372036854776k"` the product exceeds `LONG_MAX`, yet with a
64-bit `long` the code returns the wrapped product, a negative number, and
with a 32-bit `long` it returns `LONG_MIN`, the wrong bound. -/
theorem IntFromString_product_wraps :
    intText 9223372036854776 ++ ['k'] = "9223372036854776k".toList ∧
    (9223372036854776 : Int) * 1000 > upstream.LONG_MAX ∧
    IntFromString upstream (some "9223372036854776k".toList) = -9223372036854775616 ∧
    (9223372036854776 : Int) * 1000 > upstream32.LONG_MAX ∧
    IntFromString upstream32 (some "9223372036854776k".toList) = upstream32.LONG_MIN := by
  decide

/-- C8: `IntFromString` answers the special inputs before any scanning and
without logging: `NULL` gives `CF_NOINT`, `"inf"` gives `(long) CF_INFINITY`,
`"now"` gives `(long) CFSTARTTIME`; the casts keep every value that a `long`
can hold. -/
theorem IntFromString_special_tokens (E : Env) :
    IntFromStringLog E none = (E.CF_NOINT, []) ∧
    IntFromStringLog E (some "inf".toList) = (wrapLong E E.CF_INFINITY, []) ∧
    IntFromStringLog E (some "now".toList) = (wrapLong E E.CFSTARTTIME, []) ∧
    IntFromString E none = E.CF_NOINT ∧
    (E.inLong E.CF_INFINITY → IntFromString E (some "inf".toList) = E.CF_INFINITY) ∧
    (E.inLong E.CFSTARTTIME → IntFromString E (some "now".toList) = E.CFSTARTTIME) := by
  refine ⟨rfl, rfl, rfl, rfl, ?_, ?_⟩
  · intro h; exact wrapLong_of_inLong h
  · intro h; exact wrapLong_of_inLong h

theorem IntFromString_special_tokens_witness :
    IntFromString upstream (some "inf".toList) = upstream.CF_INFINITY ∧
    IntFromString upstream (some "now".toList) = upstream.CFSTARTTIME :=
  ⟨(IntFromString_special_tokens upstream).2.2.2.2.1 (by decide),
   (IntFromString_special_tokens upstream).2.2.2.2.2 (by decide)⟩

theorem scanSign_decomp (s1 : CStr) :
    ∃ sg, IsSign sg ∧ s1 = sg ++ (scanSign s1).2 ∧ (scanSign s1).1 = decide (sg = ['-']) := by
  unfold scanSign
  split
  · exact ⟨['-'], Or.inr (Or.inl rfl), rfl, rfl⟩
  · exact ⟨['+'], Or.inr (Or.inr rfl), rfl, rfl⟩
  · exact ⟨[], Or.inl rfl, rfl, rfl⟩

theorem scanInt_decomp (lo hi : Int) (s : CStr) (v : Int) (rest : CStr)
    (h : scanInt lo hi s = some (v, rest)) :
    ∃ ws sg ds, s = ws ++ (sg ++ (ds ++ rest)) ∧ (∀ c ∈ ws, isspace c = true) ∧ IsSign sg ∧
      ds ≠ [] ∧ (∀ c ∈ ds, isdigit c = true) ∧ (∀ c, rest.head? = some c → isdigit c = false) := by
  obtain ⟨sg, hsg, hs1, _⟩ := scanSign_decomp (s.dropWhile isspace)
  unfold scanInt at h
  simp only at h
  split at h
  · exact absurd h (by simp)
  · rename_i hemp
    simp only [Option.some.injEq, Prod.mk.injEq] at h
    obtain ⟨_, hrest⟩ := h
    refine ⟨s.takeWhile isspace, sg, (scanSign (s.dropWhile isspace)).2.takeWhile isdigit,
      ?_, ?_, hsg, ?_, ?_, ?_⟩
    · rw [← hrest, List.takeWhile_append_dropWhile, ← hs1, List.takeWhile_append_dropWhile]
    · intro c hc; exact List.mem_takeWhile_imp hc
    · intro e; rw [e] at hemp; exact hemp rfl
    · intro c hc; exact List.mem_takeWhile_imp hc
    · intro c hc
      rw [← hrest] at hc
      have := List.head?_dropWhile_not isdigit (scanSign (s.dropWhile isspace)).2
      rw [hc] at this
      simpa using this

theorem sscanf_lld_c_c_cases (s : CStr) :
    (sscanf_lld_c_c s).ret < 1 ∨
    (∃ v ws sg ds, sscanf_lld_c_c s = ⟨1, some v, none, none⟩ ∧ s = ws ++ (sg ++ ds) ∧
      (∀ c ∈ ws, isspace c = true) ∧ IsSign sg ∧ ds ≠ [] ∧ (∀ c ∈ ds, isdigit c = true)) ∨
    (∃ v q ws sg ds ws2, sscanf_lld_c_c s = ⟨2, some v, some q, none⟩ ∧
      s = ws ++ (sg ++ (ds ++ q :: ws2)) ∧
      (∀ c ∈ ws, isspace c = true) ∧ IsSign sg ∧ ds ≠ [] ∧ (∀ c ∈ ds, isdigit c = true) ∧
      ∀ c ∈ ws2, isspace c = true) ∨
    (∃ v q r, sscanf_lld_c_c s = ⟨3, some v, some q, some r⟩) := by
  cases hd : s.dropWhile isspace with
  | nil => left; simp [sscanf_lld_c_c, hd]
  | cons c t =>
    cases hs : scanInt LLONG_MIN LLONG_MAX s with
    | none => left; simp [sscanf_lld_c_c, hd, hs]
    | some p =>
      obtain ⟨v, rest⟩ := p
      obtain ⟨ws, sg, ds, hshape, hws, hsg, hne, hdig, _⟩ := scanInt_decomp _ _ s v rest hs
      right
      cases rest with
      | nil =>
        left
        refine ⟨v, ws, sg, ds, by simp [sscanf_lld_c_c, hd, hs], by simpa using hshape,
          hws, hsg, hne, hdig⟩
      | cons q rest2 =>
        right
        cases hr : rest2.dropWhile isspace with
        | nil =>
          left
          refine ⟨v, q, ws, sg, ds, rest2, by simp [sscanf_lld_c_c, hd, hs, hr], hshape,
            hws, hsg, hne, hdig, ?_⟩
          exact List.dropWhile_eq_nil_iff.mp hr
        | cons r t2 =>
          right
          exact ⟨v, q, r, by simp [sscanf_lld_c_c, hd, hs, hr]⟩

/-- A token outside `LooseIntLiteral` makes `sscanf` fail or find a third item. -/
theorem sscanf_lld_c_c_not_loose (s : CStr) (h : ¬ LooseIntLiteral s) :
    (sscanf_lld_c_c s).ret < 1 ∨ ∃ v q r, sscanf_lld_c_c s = ⟨3, some v, some q, some r⟩ := by
  rcases sscanf_lld_c_c_cases s with h0 | ⟨v, ws, sg, ds, _, hs, hws, hsg, hne, hd⟩ |
      ⟨v, q, ws, sg, ds, ws2, _, hs, hws, hsg, hne, hd, hws2⟩ | h3
  · exact Or.inl h0
  · exact absurd ⟨ws, sg, ds, [], by simpa using hs, hws, hsg, hne, hd, Or.inl rfl⟩ h
  · exact absurd ⟨ws, sg, ds, q :: ws2, hs, hws, hsg, hne, hd, Or.inr ⟨q, ws2, rfl, hws2⟩⟩ h
  · exact Or.inr h3

theorem IntFromString_rejected (E : Env) (hfit : E.inLong E.CF_NOINT) (s : CStr)
    (h1 : s ≠ ['i', 'n', 'f']) (h2 : s ≠ ['n', 'o', 'w'])
    (h : (sscanf_lld_c_c s).ret < 1 ∨ ∃ v q r, sscanf_lld_c_c s = ⟨3, some v, some q, some r⟩) :
    IntFromString E (some s) = E.CF_NOINT := by
  unfold IntFromString
  rcases h with h | ⟨v, q, r, h⟩
  · rw [IntFromStringLog_failed E s h1 h2 (Or.inl h), clampToLong_of_inLong hfit]
  · rw [IntFromStringLog_ret3 E s v q r h, clampToLong_of_inLong hfit]

theorem LooseIntLiteral_scanned {s : CStr} (h : LooseIntLiteral s) :
    (sscanf_lld_c_c s).ret = 1 ∨ (sscanf_lld_c_c s).ret = 2 := by
  obtain ⟨ws, sg, ds, tail, hs, hws, hsg, hne, hd, ht⟩ := h
  subst hs
  rcases ht with rfl | ⟨q, ws2, rfl, hws2⟩
  · left
    have := sscanf_lld_c_c_one ws sg ds hws hsg hne hd
    simp only [List.append_nil]
    rw [this]
  · cases hq : isdigit q with
    | false =>
      right
      rw [sscanf_lld_c_c_two ws sg ds ws2 q hws hsg hne hd hq hws2]
    | true =>
      have hd2 : ∀ c ∈ ds ++ [q], isdigit c = true := by
        intro c hc
        rcases List.mem_append.mp hc with h | h
        · exact hd c h
        · rw [List.mem_singleton] at h; rw [h]; exact hq
      have e : ds ++ q :: ws2 = (ds ++ [q]) ++ ws2 := by simp
      rw [e]
      cases ws2 with
      | nil =>
        left
        have := sscanf_lld_c_c_one ws sg (ds ++ [q]) hws hsg (by simp) hd2
        simp only [List.append_nil]
        rw [this]
      | cons w ws3 =>
        right
        have hw : isspace w = true := hws2 w (List.mem_cons_self _ _)
        have hwd : isdigit w = false := by
          cases h : isdigit w with
          | false => rfl
          | true => rw [isdigit_not_isspace h] at hw; cases hw
        rw [sscanf_lld_c_c_two ws sg (ds ++ [q]) ws3 w hws hsg (by simp) hd2 hwd
          (fun c hc => hws2 c (List.mem_cons_of_mem _ hc))]

/-- C6 (amended): a token other than `"inf"` and `"now"` that is not of the
form white space, optional sign `-` or `+`, digits, then nothing or one
character of any kind followed by white space only, gives `CF_NOINT` (taken
representable as a `long`). -/
theorem IntFromString_malformed (E : Env) (hfit : E.inLong E.CF_NOINT) (s : CStr)
    (h1 : s ≠ "inf".toList) (h2 : s ≠ "now".toList) (h : ¬ LooseIntLiteral s) :
    IntFromString E (some s) = E.CF_NOINT :=
  IntFromString_rejected E hfit s h1 h2 (sscanf_lld_c_c_not_loose s h)

theorem IntFromString_malformed_witness :
    IntFromString upstream (some "12kB".toList) = upstream.CF_NOINT ∧
    IntFromString upstream (some "k12".toList) = upstream.CF_NOINT :=
  ⟨IntFromString_malformed upstream (by decide) _ (by decide) (by decide)
      (fun h => absurd (LooseIntLiteral_scanned h) (by decide)),
   IntFromString_malformed upstream (by decide) _ (by decide) (by decide)
      (fun h => absurd (LooseIntLiteral_scanned h) (by decide))⟩

/-- C6 as stated fails at `"10x"`: the token is outside the grammar
`-?[0-9]+[kKmMgG%]?( )?`, yet the result is 10, not `CF_NOINT`. -/
theorem IntFromString_malformed_counterexample :
    strictIntLiteral "10x".toList = false ∧ "10x".toList ≠ "inf".toList ∧
    "10x".toList ≠ "now".toList ∧ IntFromString upstream (some "10x".toList) = 10 ∧
    IntFromString upstream (some "10x".toList) ≠ upstream.CF_NOINT := by
  decide

theorem strictIntLiteral_examples :
    strictIntLiteral "7".toList = true ∧ strictIntLiteral "-12k".toList = true ∧
    strictIntLiteral "50% ".toList = true ∧ strictIntLiteral "3G".toList = true ∧
    strictIntLiteral "4 ".toList = true ∧ strictIntLiteral "+5".toList = false ∧
    strictIntLiteral " 5".toList = false ∧ strictIntLiteral "5kk".toList = false ∧
    strictIntLiteral "5  ".toList = false ∧ strictIntLiteral "".toList = false ∧
    strictIntLiteral "-".toList = false ∧ strictIntLiteral "5x".toList = false := by
  decide


theorem no_dollar_in_number (ws sg ds : CStr) (hws : ∀ c ∈ ws, isspace c = true)
    (hsg : IsSign sg) (hd : ∀ c ∈ ds, isdigit c = true) : '$' ∉ ws ++ (sg ++ ds) := by
  intro h
  rcases List.mem_append.mp h with h | h
  · exact absurd (hws _ h) (by decide)
  · rcases List.mem_append.mp h with h | h
    · rcases hsg with e | e | e <;> subst e <;> revert h <;> decide
    · exact absurd (hd _ h) (by decide)

theorem DollarQuantified_scanned {s : CStr} (h : DollarQuantified s) :
    (sscanf_lld_c_c s).ret = 2 ∧ (sscanf_lld_c_c s).quantifier = some '$' := by
  obtain ⟨ws, sg, ds, ws2, hs, hws, hsg, hne, hd, hws2⟩ := h
  subst hs
  rw [sscanf_lld_c_c_two ws sg ds ws2 '$' hws hsg hne hd (by decide) hws2]
  exact ⟨rfl, rfl⟩

/-- C7 (amended): a token that contains `$` gives `CF_NOINT` (taken
representable as a `long`), unless the `$` is the one character that follows
the leading number, with white space at most after it. -/
theorem IntFromString_dollar (E : Env) (hfit : E.inLong E.CF_NOINT) (s : CStr)
    (hdollar : '$' ∈ s) (hq : ¬ DollarQuantified s) :
    IntFromString E (some s) = E.CF_NOINT := by
  have h1 : s ≠ ['i', 'n', 'f'] := by intro e; subst e; revert hdollar; decide
  have h2 : s ≠ ['n', 'o', 'w'] := by intro e; subst e; revert hdollar; decide
  apply IntFromString_rejected E hfit s h1 h2
  rcases sscanf_lld_c_c_cases s with h0 | ⟨v, ws, sg, ds, _, hs, hws, hsg, hne, hd⟩ |
      ⟨v, q, ws, sg, ds, ws2, _, hs, hws, hsg, hne, hd, hws2⟩ | h3
  · exact Or.inl h0
  · exfalso
    rw [hs] at hdollar
    exact no_dollar_in_number ws sg ds hws hsg hd hdollar
  · exfalso
    have e : ws ++ (sg ++ (ds ++ q :: ws2)) = (ws ++ (sg ++ ds)) ++ q :: ws2 := by simp
    rw [hs, e] at hdollar
    rcases List.mem_append.mp hdollar with h | h
    · exact no_dollar_in_number ws sg ds hws hsg hd h
    · rcases List.mem_cons.mp h with h | h
      · subst h
        exact hq ⟨ws, sg, ds, ws2, hs, hws, hsg, hne, hd, hws2⟩
      · exact absurd (hws2 _ h) (by decide)
  · exact Or.inr h3

theorem IntFromString_dollar_witness :
    IntFromString upstream (some "$(size)".toList) = upstream.CF_NOINT ∧
    IntFromString upstream (some "5k$".toList) = upstream.CF_NOINT :=
  ⟨IntFromString_dollar upstream (by decide) _ (by decide)
      (fun h => absurd (DollarQuantified_scanned h) (by decide)),
   IntFromString_dollar upstream (by decide) _ (by decide)
      (fun h => absurd (DollarQuantified_scanned h) (by decide))⟩

/-- C7 as stated fails at `"5$"`: the token contains `$`, yet the result is
5, not `CF_NOINT`. -/
theorem IntFromString_dollar_counterexample :
    '$' ∈ "5$".toList ∧ strictIntLiteral "5$".toList = false ∧
    IntFromString upstream (some "5$".toList) = 5 ∧
    IntFromString upstream (some "5$".toList) ≠ upstream.CF_NOINT := by
  decide

/-! ## `IntegerRangeFromString`: theorems -/

theorem SplitString_no_sep (sep : Char) : ∀ b : CStr, sep ∉ b → SplitString b sep = [b] := by
  intro b
  induction b with
  | nil => intro _; rfl
  | cons c t ih =>
    intro h
    have hc : c ≠ sep := fun e => h (e ▸ List.mem_cons_self _ _)
    have ht : sep ∉ t := fun m => h (List.mem_cons_of_mem _ m)
    simp [SplitString, hc, ih ht]

theorem SplitString_first (sep : Char) (b : CStr) :
    ∀ a : CStr, sep ∉ a → SplitString (a ++ sep :: b) sep = a :: SplitString b sep := by
  intro a
  induction a with
  | nil => intro _; simp [SplitString]
  | cons c t ih =>
    intro h
    have hc : c ≠ sep := fun e => h (e ▸ List.mem_cons_self _ _)
    have ht : sep ∉ t := fun m => h (List.mem_cons_of_mem _ m)
    simp [SplitString, hc, ih ht]

theorem intText_no_comma (n : Int) : ',' ∉ intText n := by
  obtain ⟨sg, ds, hs, hsg, _, hd, _⟩ := intText_shape n
  rw [hs]
  intro h
  rcases List.mem_append.mp h with h | h
  · rcases hsg with e | e | e <;> subst e <;> revert h <;> decide
  · exact absurd (hd _ h) (by decide)

theorem sscanf_ld_intText (E : Env) (n : Int) (hn : E.inLong n) :
    sscanf_ld E (intText n) = (1, some n) := by
  obtain ⟨sg, ds, hs, hsg, hne, hd, hval⟩ := intText_shape n
  have hscan := scanInt_run E.LONG_MIN E.LONG_MAX [] sg ds [] (by simp) hsg hne hd (by simp)
  obtain ⟨c, t, hct⟩ := dropWhile_space_run [] sg ds [] (by simp) hsg hne hd
  simp only [List.append_nil, List.nil_append] at hscan hct
  rw [hval, clamp_of_range hn.1 hn.2] at hscan
  unfold sscanf_ld
  rw [hs, hct]
  simp only [hscan]

theorem intText_ne_inf (n : Int) : intText n ≠ ['i', 'n', 'f'] := by
  obtain ⟨sg, ds, hs, hsg, hne, hd, _⟩ := intText_shape n
  intro e
  rw [hs] at e
  cases ds with
  | nil => exact hne rfl
  | cons d t =>
    have hdd := hd d (List.mem_cons_self _ _)
    rcases hsg with e2 | e2 | e2 <;> subst e2 <;> simp at e
    rw [e.1] at hdd
    revert hdd; decide

/-- C9 (amended): for `a` representable as a `long` and different from
the sentinel `CF_HIGHINIT`, the range `"a,b"` with `b` representable and
different from `CF_LOWINIT` succeeds with `(a, b)`, whether or not `a <= b`,
and the range `"a,inf"` succeeds with `(a, CF_INFINITY)` when `CF_INFINITY`
is representable and is not `CF_LOWINIT`. -/
theorem IntegerRangeFromString_pair (E : Env) (a : Int) (min_out max_out : Int)
    (ha : E.inLong a) (ha2 : a ≠ E.CF_HIGHINIT) :
    (∀ b : Int, E.inLong b → b ≠ E.CF_LOWINIT →
      IntegerRangeFromString E (some (intText a ++ ',' :: intText b)) min_out max_out =
        some (true, a, b)) ∧
    (E.inLong E.CF_INFINITY → E.CF_INFINITY ≠ E.CF_LOWINIT →
      IntegerRangeFromString E (some (intText a ++ ",inf".toList)) min_out max_out =
        some (true, a, E.CF_INFINITY)) := by
  constructor
  · intro b hb hb2
    have hsplit : SplitString (intText a ++ ',' :: intText b) ',' = [intText a, intText b] := by
      rw [SplitString_first ',' _ _ (intText_no_comma a), SplitString_no_sep ',' _ (intText_no_comma b)]
    simp [IntegerRangeFromString, hsplit, sscanf_ld_intText E a ha, sscanf_ld_intText E b hb,
      intText_ne_inf b, ha2, hb2]
  · intro hi hi2
    have hsplit : SplitString (intText a ++ [',', 'i', 'n', 'f']) ',' =
        [intText a, ['i', 'n', 'f']] := by
      rw [SplitString_first ',' _ _ (intText_no_comma a), SplitString_no_sep ',' _ (by decide)]
    simp [IntegerRangeFromString, hsplit, sscanf_ld_intText E a ha, wrapLong_of_inLong hi, ha2, hi2]

theorem IntegerRangeFromString_pair_witness :
    (intText 5 ++ ',' :: intText 2 = "5,2".toList ∧
      IntegerRangeFromString upstream (some (intText 5 ++ ',' :: intText 2)) 0 0 =
        some (true, 5, 2)) ∧
    (intText 1 ++ ",inf".toList = "1,inf".toList ∧
      IntegerRangeFromString upstream (some (intText 1 ++ ",inf".toList)) 0 0 =
        some (true, 1, upstream.CF_INFINITY)) :=
  ⟨⟨by decide, (IntegerRangeFromString_pair upstream 5 0 0 (by decide) (by decide)).1 2
      (by decide) (by decide)⟩,
   ⟨by decide, (IntegerRangeFromString_pair upstream 1 0 0 (by decide) (by decide)).2
      (by decide) (by decide)⟩⟩

/-- C9 as stated fails when a bound equals the value it is initialised to:
with the upstream constants, at `"999999,5"` (`a = CF_HIGHINIT`) and at
`"7,-999999"` (`b = CF_LOWINIT`) both numbers are representable, yet the call
returns false and writes nothing. -/
theorem IntegerRangeFromString_pair_counterexample :
    (upstream.inLong upstream.CF_HIGHINIT ∧ upstream.inLong 5 ∧
      intText upstream.CF_HIGHINIT ++ ',' :: intText 5 = "999999,5".toList ∧
      IntegerRangeFromString upstream (some "999999,5".toList) 0 0 = some (false, 0, 0)) ∧
    (upstream.inLong 7 ∧ upstream.inLong upstream.CF_LOWINIT ∧
      intText 7 ++ ',' :: intText upstream.CF_LOWINIT = "7,-999999".toList ∧
      IntegerRangeFromString upstream (some "7,-999999".toList) 0 0 = some (false, 0, 0)) := by
  decide

/-- Whatever value the header gives `CF_HIGHINIT`, a lower bound equal to it
is taken for a failed parse. -/
theorem IntegerRangeFromString_sentinel (E : Env) (b : Int) (min_out max_out : Int)
    (h : E.inLong E.CF_HIGHINIT) :
    IntegerRangeFromString E (some (intText E.CF_HIGHINIT ++ ',' :: intText b)) min_out max_out =
      some (false, min_out, max_out) := by
  have hsplit : SplitString (intText E.CF_HIGHINIT ++ ',' :: intText b) ',' =
      [intText E.CF_HIGHINIT, intText b] := by
    rw [SplitString_first ',' _ _ (intText_no_comma _), SplitString_no_sep ',' _ (intText_no_comma b)]
  simp [IntegerRangeFromString, hsplit, sscanf_ld_intText E _ h]

/-- C10: for an absent (`NULL`) range the call succeeds and sets both outputs
to `CF_NOINT`, whatever they held before. -/
theorem IntegerRangeFromString_null (E : Env) (min_out max_out : Int) :
    IntegerRangeFromString E none min_out max_out = some (true, E.CF_NOINT, E.CF_NOINT) :=
  rfl

/-! ## `IntegerRangeFromString`: malformed ranges -/

theorem scanInt_of_begins (lo hi : Int) {s : CStr} (h : BeginsWithInteger s) :
    ∃ v rest, scanInt lo hi s = some (v, rest) := by
  obtain ⟨ws, sg, ds, rest, hs, hws, hsg, hne, hd⟩ := h
  have hd2 : ∀ c ∈ ds ++ rest.takeWhile isdigit, isdigit c = true := by
    intro c hc
    rcases List.mem_append.mp hc with h | h
    · exact hd c h
    · exact List.mem_takeWhile_imp h
  have hr : ∀ c, (rest.dropWhile isdigit).head? = some c → isdigit c = false := by
    intro c hc
    have := List.head?_dropWhile_not isdigit rest
    rw [hc] at this
    simpa using this
  have e : s = ws ++ (sg ++ ((ds ++ rest.takeWhile isdigit) ++ rest.dropWhile isdigit)) := by
    rw [hs, List.append_assoc ds, List.takeWhile_append_dropWhile]
  rw [e]
  exact ⟨_, _, scanInt_run lo hi ws sg _ _ hws hsg (by simp [hne]) hd2 hr⟩

theorem sscanf_ld_unassigned (E : Env) {s : CStr} (h : ¬ BeginsWithInteger s) :
    (sscanf_ld E s).2 = none := by
  unfold sscanf_ld
  cases hd : s.dropWhile isspace with
  | nil => rfl
  | cons c t =>
    cases hs : scanInt E.LONG_MIN E.LONG_MAX s with
    | none => rfl
    | some p =>
      obtain ⟨v, rest⟩ := p
      obtain ⟨ws, sg, ds, hshape, hws, hsg, hne, hdig, _⟩ := scanInt_decomp _ _ s v rest hs
      exact absurd ⟨ws, sg, ds, rest, hshape, hws, hsg, hne, hdig⟩ h

theorem sscanf_ld_assigned (E : Env) {s : CStr} (h : BeginsWithInteger s) :
    ∃ v, (sscanf_ld E s).2 = some v := by
  obtain ⟨v, rest, hv⟩ := scanInt_of_begins E.LONG_MIN E.LONG_MAX h
  obtain ⟨ws, sg, ds, hshape, hws, hsg, hne, hdig, _⟩ := scanInt_decomp _ _ s v rest hv
  obtain ⟨c, t, hct⟩ := dropWhile_space_run ws sg ds rest hws hsg hne hdig
  rw [← hshape] at hct
  exact ⟨v, by simp [sscanf_ld, hct, hv]⟩

/-- C11: when the range splits at its first comma into a first and a second
part (and possibly more) and the first part does not begin with an integer, or
the second is neither `"inf"` nor begins with an integer, the call returns
false and leaves both outputs as they were. -/
theorem IntegerRangeFromString_malformed (E : Env) (intrange first second : CStr)
    (more : List CStr) (min_out max_out : Int)
    (hsplit : SplitString intrange ',' = first :: second :: more)
    (hbad : ¬ BeginsWithInteger first ∨
      (second ≠ "inf".toList ∧ ¬ BeginsWithInteger second)) :
    IntegerRangeFromString E (some intrange) min_out max_out = some (false, min_out, max_out) := by
  rcases hbad with h | ⟨h1, h2⟩
  · simp [IntegerRangeFromString, hsplit, sscanf_ld_unassigned E h]
  · have h1' : second ≠ ['i', 'n', 'f'] := h1
    simp [IntegerRangeFromString, hsplit, sscanf_ld_unassigned E h2, h1']

theorem IntegerRangeFromString_malformed_witness :
    IntegerRangeFromString upstream (some "x,5".toList) 3 4 = some (false, 3, 4) ∧
    IntegerRangeFromString upstream (some "1,max".toList) 3 4 = some (false, 3, 4) :=
  ⟨IntegerRangeFromString_malformed upstream _ "x".toList "5".toList [] 3 4 (by decide)
      (Or.inl (fun h => by
        obtain ⟨v, hv⟩ := sscanf_ld_assigned upstream h
        have hn : (sscanf_ld upstream "x".toList).2 = none := by decide
        rw [hn] at hv; cases hv)),
   IntegerRangeFromString_malformed upstream _ "1".toList "max".toList [] 3 4 (by decide)
      (Or.inr ⟨by decide, fun h => by
        obtain ⟨v, hv⟩ := sscanf_ld_assigned upstream h
        have hn : (sscanf_ld upstream "max".toList).2 = none := by decide
        rw [hn] at hv; cases hv⟩)⟩

/-! ## Data types and booleans: theorems -/

/-- C16 (amended): for every keyword of `datatype_strings` other than `"none"`
the round trip `DataTypeToString (DataTypeFromString s)` is defined and gives
`s` back. -/
theorem DataType_round_trip :
    ∀ s ∈ datatype_strings, s ≠ "none".toList →
      DataTypeToString (DataTypeFromString s) = some s := by
  decide

theorem DataType_round_trip_witness :
    DataTypeToString (DataTypeFromString "slist".toList) = some "slist".toList :=
  DataType_round_trip "slist".toList (by decide) (by decide)

/-- C16 as stated fails at `"none"`: it is a keyword of the table, it maps to
`CF_DATA_TYPE_NONE`, and `DataTypeToString` asserts `type < CF_DATA_TYPE_NONE`. -/
theorem DataType_round_trip_counterexample :
    "none".toList ∈ datatype_strings ∧
    DataTypeFromString "none".toList = CF_DATA_TYPE_NONE ∧
    DataTypeToString (DataTypeFromString "none".toList) = none := by
  decide

/-- C17: `StringIsBoolean` holds exactly of the six tokens, and
`BooleanFromString` is false exactly of `"false"`, `"no"` and `"off"`, hence
true of every other string, boolean or not. -/
theorem Boolean_tokens (s : CStr) :
    (StringIsBoolean s = true ↔
      s ∈ ["true".toList, "false".toList, "yes".toList, "no".toList, "on".toList,
        "off".toList]) ∧
    (BooleanFromString s = false ↔ s ∈ ["false".toList, "no".toList, "off".toList]) ∧
    (s ∉ ["false".toList, "no".toList, "off".toList] → BooleanFromString s = true) ∧
    (StringIsBoolean s = false → BooleanFromString s = true) := by
  have h2 : BooleanFromString s = false ↔ s ∈ ["false".toList, "no".toList, "off".toList] := by
    simp only [BooleanFromString, String.toList, List.mem_cons, List.mem_singleton,
      List.not_mem_nil, or_false]
    split_ifs with h
    · simp [h]
    · simp [h]
  have h1 : StringIsBoolean s = true ↔
      s ∈ ["true".toList, "false".toList, "yes".toList, "no".toList, "on".toList,
        "off".toList] := by
    simp [StringIsBoolean]
  refine ⟨h1, h2, ?_, ?_⟩
  · intro h
    cases hb : BooleanFromString s with
    | true => rfl
    | false => exact absurd (h2.mp hb) h
  · intro h
    cases hb : BooleanFromString s with
    | true => rfl
    | false =>
      have hm := h2.mp hb
      have : StringIsBoolean s = true := by
        apply h1.mpr
        simp only [List.mem_cons, List.mem_singleton, List.not_mem_nil, or_false] at hm ⊢
        tauto
      rw [this] at h; cases h

theorem Boolean_tokens_witness :
    BooleanFromString "maybe".toList = true ∧ BooleanFromString "False".toList = true :=
  ⟨(Boolean_tokens "maybe".toList).2.2.1 (by decide),
   (Boolean_tokens "False".toList).2.2.2 (by decide)⟩

/-! ## Shell type and ACL inheritance: theorems -/

theorem strchr_token (c : Char) (rest : CStr) :
    ∀ tok : CStr, c ∉ tok → strchr (tok ++ c :: rest) c = some tok.length := by
  intro tok
  induction tok with
  | nil => intro _; simp [strchr]
  | cons h t ih =>
    intro hn
    have hh : h ≠ c := fun e => hn (e ▸ List.mem_cons_self _ _)
    have ht : c ∉ t := fun m => hn (List.mem_cons_of_mem _ m)
    simp [strchr, hh, ih ht]

theorem strchr_absent (c : Char) : ∀ s : CStr, c ∉ s → strchr s c = none := by
  intro s
  induction s with
  | nil => intro _; rfl
  | cons h t ih =>
    intro hn
    have hh : h ≠ c := fun e => hn (e ▸ List.mem_cons_self _ _)
    have ht : c ∉ t := fun m => hn (List.mem_cons_of_mem _ m)
    simp [strchr, hh, ih ht]

/-- The comparison of the loops: equal length and equal first characters is
equality with the token in front of the comma. -/
theorem token_test (string tok rest : CStr) :
    (string.length = tok.length ∧ string.take tok.length = (tok ++ ',' :: rest).take tok.length) ↔
      string = tok := by
  constructor
  · rintro ⟨hl, ht⟩
    rw [List.take_left' rfl, ← hl, List.take_length] at ht
    exact ht
  · rintro rfl
    exact ⟨rfl, by rw [List.take_left' rfl, List.take_length]⟩

theorem ShellTypeFromString_loop_token (string tok rest : CStr) (fuel i : Nat)
    (hf : 0 < fuel) (hn : ',' ∉ tok) :
    ShellTypeFromString.loop string fuel (tok ++ ',' :: rest) i =
      if string = tok then some (ShellTypeFromString.switch i)
      else ShellTypeFromString.loop string (fuel - 1) rest (i + 1) := by
  obtain ⟨f, rfl⟩ : ∃ f, fuel = f + 1 := ⟨fuel - 1, by omega⟩
  have hd : (tok ++ ',' :: rest).drop (tok.length + 1) = rest := by
    have : tok ++ ',' :: rest = (tok ++ [',']) ++ rest := by simp
    rw [this, List.drop_left' (by simp)]
  simp only [ShellTypeFromString.loop, strchr_token ',' rest tok hn, token_test, hd,
    Nat.add_sub_cancel]

theorem ShellTypeFromString_loop_last (string start : CStr) (fuel i : Nat)
    (hf : 0 < fuel) (hn : ',' ∉ start) :
    ShellTypeFromString.loop string fuel start i = some ShellType.SHELL_TYPE_NONE := by
  obtain ⟨f, rfl⟩ : ∃ f, fuel = f + 1 := ⟨fuel - 1, by omega⟩
  simp only [ShellTypeFromString.loop, strchr_absent ',' start hn]

theorem ShellTypeFromString_eq (s : CStr) :
    ShellTypeFromString (some s) = some (
      if s = "noshell".toList then ShellType.SHELL_TYPE_NONE
      else if s = "useshell".toList then ShellType.SHELL_TYPE_USE
      else if s = "powershell".toList then ShellType.SHELL_TYPE_POWERSHELL
      else if s = "true".toList then ShellType.SHELL_TYPE_USE
      else if s = "false".toList then ShellType.SHELL_TYPE_NONE
      else if s = "yes".toList then ShellType.SHELL_TYPE_USE
      else if s = "no".toList then ShellType.SHELL_TYPE_NONE
      else if s = "on".toList then ShellType.SHELL_TYPE_USE
      else ShellType.SHELL_TYPE_NONE) := by
  have e : "noshell,useshell,powershell,".toList ++ CF_BOOL =
      "noshell".toList ++ ',' :: ("useshell".toList ++ ',' :: ("powershell".toList ++ ',' ::
      ("true".toList ++ ',' :: ("false".toList ++ ',' :: ("yes".toList ++ ',' ::
      ("no".toList ++ ',' :: ("on".toList ++ ',' :: "off".toList))))))) := by decide
  have hl : ("noshell,useshell,powershell,".toList ++ CF_BOOL).length + 1 = 53 := by decide
  simp only [ShellTypeFromString, hl]
  rw [e]
  rw [ShellTypeFromString_loop_token _ _ _ _ _ (by decide) (by decide),
    ShellTypeFromString_loop_token _ _ _ _ _ (by decide) (by decide),
    ShellTypeFromString_loop_token _ _ _ _ _ (by decide) (by decide),
    ShellTypeFromString_loop_token _ _ _ _ _ (by decide) (by decide),
    ShellTypeFromString_loop_token _ _ _ _ _ (by decide) (by decide),
    ShellTypeFromString_loop_token _ _ _ _ _ (by decide) (by decide),
    ShellTypeFromString_loop_token _ _ _ _ _ (by decide) (by decide),
    ShellTypeFromString_loop_token _ _ _ _ _ (by decide) (by decide),
    ShellTypeFromString_loop_last _ _ _ _ (by decide) (by decide)]
  split_ifs <;> rfl


/-- C18: `ShellTypeFromString` gives `SHELL_TYPE_USE` exactly for `"useshell"`,
`"true"`, `"yes"` and `"on"`, `SHELL_TYPE_POWERSHELL` exactly for
`"powershell"`, and `SHELL_TYPE_NONE` for every other input, `NULL`, the other
keywords and any shortened or lengthened keyword among them. -/
theorem ShellTypeFromString_values (string : Option CStr) :
    (ShellTypeFromString string = some ShellType.SHELL_TYPE_USE ↔
      string ∈ [some "useshell".toList, some "true".toList, some "yes".toList,
        some "on".toList]) ∧
    (ShellTypeFromString string = some ShellType.SHELL_TYPE_POWERSHELL ↔
      string = some "powershell".toList) ∧
    (string ∉ [some "useshell".toList, some "true".toList, some "yes".toList,
        some "on".toList, some "powershell".toList] →
      ShellTypeFromString string = some ShellType.SHELL_TYPE_NONE) := by
  rcases string with _ | s
  · decide
  · by_cases h1 : s = "noshell".toList
    · subst h1; decide
    by_cases h2 : s = "useshell".toList
    · subst h2; decide
    by_cases h3 : s = "powershell".toList
    · subst h3; decide
    by_cases h4 : s = "true".toList
    · subst h4; decide
    by_cases h5 : s = "false".toList
    · subst h5; decide
    by_cases h6 : s = "yes".toList
    · subst h6; decide
    by_cases h7 : s = "no".toList
    · subst h7; decide
    by_cases h8 : s = "on".toList
    · subst h8; decide
    rw [ShellTypeFromString_eq]
    simp only [String.toList] at h1 h2 h3 h4 h5 h6 h7 h8
    simp [h1, h2, h3, h4, h5, h6, h7, h8]

theorem ShellTypeFromString_values_witness :
    ShellTypeFromString none = some ShellType.SHELL_TYPE_NONE ∧
    ShellTypeFromString (some "off".toList) = some ShellType.SHELL_TYPE_NONE ∧
    ShellTypeFromString (some "yess".toList) = some ShellType.SHELL_TYPE_NONE ∧
    ShellTypeFromString (some "tru".toList) = some ShellType.SHELL_TYPE_NONE :=
  ⟨(ShellTypeFromString_values none).2.2 (by decide),
   (ShellTypeFromString_values (some "off".toList)).2.2 (by decide),
   (ShellTypeFromString_values (some "yess".toList)).2.2 (by decide),
   (ShellTypeFromString_values (some "tru".toList)).2.2 (by decide)⟩

theorem AclInheritFromString_loop_token (string tok rest : CStr) (fuel i : Nat)
    (hf : 0 < fuel) (hn : ',' ∉ tok) :
    AclInheritFromString.loop string fuel (tok ++ ',' :: rest) i =
      if string = tok then
        some (if i % 2 = 1 then AclInherit.ACL_INHERIT_FALSE else AclInherit.ACL_INHERIT_TRUE)
      else AclInheritFromString.loop string (fuel - 1) rest (i + 1) := by
  obtain ⟨f, rfl⟩ : ∃ f, fuel = f + 1 := ⟨fuel - 1, by omega⟩
  have hd : (tok ++ ',' :: rest).drop (tok.length + 1) = rest := by
    have : tok ++ ',' :: rest = (tok ++ [',']) ++ rest := by simp
    rw [this, List.drop_left' (by simp)]
  simp only [AclInheritFromString.loop, strchr_token ',' rest tok hn, token_test, hd,
    Nat.add_sub_cancel]

theorem AclInheritFromString_loop_last (string start : CStr) (fuel i : Nat)
    (hf : 0 < fuel) (hn : ',' ∉ start) :
    AclInheritFromString.loop string fuel start i = some AclInherit.ACL_INHERIT_NOCHANGE := by
  obtain ⟨f, rfl⟩ : ∃ f, fuel = f + 1 := ⟨fuel - 1, by omega⟩
  simp only [AclInheritFromString.loop, strchr_absent ',' start hn]

theorem AclInheritFromString_eq (s : CStr) :
    AclInheritFromString (some s) = some (
      if s = "true".toList then AclInherit.ACL_INHERIT_TRUE
      else if s = "false".toList then AclInherit.ACL_INHERIT_FALSE
      else if s = "yes".toList then AclInherit.ACL_INHERIT_TRUE
      else if s = "no".toList then AclInherit.ACL_INHERIT_FALSE
      else if s = "on".toList then AclInherit.ACL_INHERIT_TRUE
      else if s = "off".toList then AclInherit.ACL_INHERIT_FALSE
      else AclInherit.ACL_INHERIT_NOCHANGE) := by
  have e : CF_BOOL ++ ",nochange".toList =
      "true".toList ++ ',' :: ("false".toList ++ ',' :: ("yes".toList ++ ',' ::
      ("no".toList ++ ',' :: ("on".toList ++ ',' :: ("off".toList ++ ',' ::
      "nochange".toList))))) := by decide
  have hl : (CF_BOOL ++ ",nochange".toList).length + 1 = 34 := by decide
  simp only [AclInheritFromString, hl]
  rw [e]
  rw [AclInheritFromString_loop_token _ _ _ _ _ (by decide) (by decide),
    AclInheritFromString_loop_token _ _ _ _ _ (by decide) (by decide),
    AclInheritFromString_loop_token _ _ _ _ _ (by decide) (by decide),
    AclInheritFromString_loop_token _ _ _ _ _ (by decide) (by decide),
    AclInheritFromString_loop_token _ _ _ _ _ (by decide) (by decide),
    AclInheritFromString_loop_token _ _ _ _ _ (by decide) (by decide),
    AclInheritFromString_loop_last _ _ _ _ (by decide) (by decide)]
  split_ifs <;> first | rfl | (exfalso; assumption) | (exfalso; omega)

/-- C19: `AclInheritFromString` gives `ACL_INHERIT_TRUE` exactly for `"true"`,
`"yes"` and `"on"`, `ACL_INHERIT_FALSE` exactly for `"false"`, `"no"` and
`"off"`, and `ACL_INHERIT_NOCHANGE` for every other input, `NULL` and
`"nochange"` among them. -/
theorem AclInheritFromString_values (string : Option CStr) :
    (AclInheritFromString string = some AclInherit.ACL_INHERIT_TRUE ↔
      string ∈ [some "true".toList, some "yes".toList, some "on".toList]) ∧
    (AclInheritFromString string = some AclInherit.ACL_INHERIT_FALSE ↔
      string ∈ [some "false".toList, some "no".toList, some "off".toList]) ∧
    (string ∉ [some "true".toList, some "yes".toList, some "on".toList,
        some "false".toList, some "no".toList, some "off".toList] →
      AclInheritFromString string = some AclInherit.ACL_INHERIT_NOCHANGE) := by
  rcases string with _ | s
  · decide
  · by_cases h1 : s = "true".toList
    · subst h1; decide
    by_cases h2 : s = "false".toList
    · subst h2; decide
    by_cases h3 : s = "yes".toList
    · subst h3; decide
    by_cases h4 : s = "no".toList
    · subst h4; decide
    by_cases h5 : s = "on".toList
    · subst h5; decide
    by_cases h6 : s = "off".toList
    · subst h6; decide
    rw [AclInheritFromString_eq]
    simp only [String.toList] at h1 h2 h3 h4 h5 h6
    simp [h1, h2, h3, h4, h5, h6]

theorem AclInheritFromString_values_witness :
    AclInheritFromString none = some AclInherit.ACL_INHERIT_NOCHANGE ∧
    AclInheritFromString (some "nochange".toList) = some AclInherit.ACL_INHERIT_NOCHANGE ∧
    AclInheritFromString (some "True".toList) = some AclInherit.ACL_INHERIT_NOCHANGE :=
  ⟨(AclInheritFromString_values none).2.2 (by decide),
   (AclInheritFromString_values (some "nochange".toList)).2.2 (by decide),
   (AclInheritFromString_values (some "True".toList)).2.2 (by decide)⟩

/-! ## `CommandArg0_bound`: theorems -/

theorem CommandArg0_bound_scan (src : CStr) :
    strchrnul (if src.head? = some '"' then src.drop 1 else src)
      (if src.head? = some '"' then '"' else ' ') = (firstArgument src).length := by
  cases src with
  | nil => rfl
  | cons c t =>
    by_cases h : c = '"'
    · subst h; simp [strchrnul, firstArgument]
    · simp [strchrnul, firstArgument, h]

/-- C20 (amended): when the first argument has at least `dst_size` characters
the call returns `(size_t) -1`; the destination then holds the marker cut to
`dst_size - 1` characters, which is the whole marker from `dst_size = 26` on,
and is not written at all when `dst_size` is 0. -/
theorem CommandArg0_bound_overflow (SIZE_MAX : Nat) (dst src : CStr) (dst_size : Nat)
    (hlen : dst_size ≤ (firstArgument src).length) :
    (CommandArg0_bound SIZE_MAX dst src dst_size).1 = SIZE_MAX ∧
    (26 ≤ dst_size → (CommandArg0_bound SIZE_MAX dst src dst_size).2 = commandArg0Trap) ∧
    (0 < dst_size →
      (CommandArg0_bound SIZE_MAX dst src dst_size).2 = commandArg0Trap.take (dst_size - 1)) ∧
    (dst_size = 0 → (CommandArg0_bound SIZE_MAX dst src dst_size).2 = dst) := by
  have hnot : ¬ (firstArgument src).length < dst_size := by omega
  have e : CommandArg0_bound SIZE_MAX dst src dst_size =
      (SIZE_MAX, strlcpy dst commandArg0Trap dst_size) := by
    simp only [CommandArg0_bound, CommandArg0_bound_scan, if_neg hnot]
  rw [e]
  refine ⟨rfl, ?_, ?_, ?_⟩
  · intro h
    have h0 : dst_size ≠ 0 := by omega
    simp only [strlcpy, if_neg h0]
    apply List.take_of_length_le
    have : commandArg0Trap.length = 25 := by decide
    omega
  · intro h
    have h0 : dst_size ≠ 0 := by omega
    simp only [strlcpy, if_neg h0]
  · intro h
    simp [strlcpy, h]

theorem CommandArg0_bound_overflow_witness :
    (CommandArg0_bound 4294967295 "old".toList
        "/var/cfengine/bin/cf-agent-with-a-long-name -K".toList 26).1 = 4294967295 ∧
    (CommandArg0_bound 4294967295 "old".toList
        "/var/cfengine/bin/cf-agent-with-a-long-name -K".toList 26).2 = commandArg0Trap :=
  ⟨(CommandArg0_bound_overflow 4294967295 "old".toList
      "/var/cfengine/bin/cf-agent-with-a-long-name -K".toList 26 (by decide)).1,
   (CommandArg0_bound_overflow 4294967295 "old".toList
      "/var/cfengine/bin/cf-agent-with-a-long-name -K".toList 26 (by decide)).2.1 (by decide)⟩

/-- C20 as stated fails for a small destination: with `dst_size = 5` and the
first argument `/usr/bin/foo` of 12 characters the destination holds `"BUG:"`,
not the marker; with `dst_size = 0` it keeps what it held. -/
theorem CommandArg0_bound_overflow_counterexample :
    (5 ≤ (firstArgument "/usr/bin/foo -x".toList).length ∧
      CommandArg0_bound 4294967295 "old".toList "/usr/bin/foo -x".toList 5 =
        (4294967295, "BUG:".toList) ∧
      "BUG:".toList ≠ "BUG: COMMANDARG0_TOO_LONG".toList) ∧
    (0 ≤ (firstArgument "/usr/bin/foo -x".toList).length ∧
      CommandArg0_bound 4294967295 "old".toList "/usr/bin/foo -x".toList 0 =
        (4294967295, "old".toList)) := by
  decide

/-! ## Users and groups: theorems -/

theorem sscanf_ju_digits (ds : CStr) (hne : ds ≠ []) (hd : ∀ c ∈ ds, isdigit c = true) :
    sscanf_ju ds = some (if UINTMAX_MAX < decVal ds then UINTMAX_MAX else decVal ds) := by
  obtain ⟨hs1, hs2⟩ := scanSign_run [] ds [] (Or.inl rfl) hne hd
  obtain ⟨htk, _⟩ := takeWhile_run ds [] hd (by simp)
  simp only [List.nil_append, List.append_nil] at hs1 hs2 htk
  have hemp : ds.isEmpty = false := by
    cases ds with
    | nil => exact absurd rfl hne
    | cons _ _ => rfl
  unfold sscanf_ju
  simp only [hs2, hs1, htk, hemp]
  split_ifs <;> simp_all

theorem StringIsNumeric_iff (s : CStr) : StringIsNumeric s = true ↔ ∀ c ∈ s, isdigit c = true := by
  simp [StringIsNumeric, List.all_eq_true]

theorem numeric_ne_star {s : CStr} (h : StringIsNumeric s = true) : s ≠ ['*'] := by
  intro e; subst e; revert h; decide

theorem Str2Uid_numeric (I : IdEnv) (D : Directory) (tok : CStr) (uc : Option CStr) (pp : Bool)
    (hne : tok ≠ []) (hd : ∀ c ∈ tok, isdigit c = true) :
    Str2Uid I D tok uc pp =
      some ⟨(if UINTMAX_MAX < decVal tok then UINTMAX_MAX else decVal tok) % (I.UID_MAX + 1),
        uc, []⟩ := by
  have hnum := (StringIsNumeric_iff tok).mpr hd
  have hstar := numeric_ne_star hnum
  simp [Str2Uid, hstar, hnum, sscanf_ju_digits tok hne hd]

theorem Str2Gid_numeric (I : IdEnv) (D : Directory) (tok : CStr) (uc : Option CStr) (pp : Bool)
    (hne : tok ≠ []) (hd : ∀ c ∈ tok, isdigit c = true) :
    Str2Gid I D tok uc pp =
      some ⟨(if UINTMAX_MAX < decVal tok then UINTMAX_MAX else decVal tok) % (I.GID_MAX + 1),
        uc, []⟩ := by
  have hnum := (StringIsNumeric_iff tok).mpr hd
  have hstar := numeric_ne_star hnum
  simp [Str2Gid, hstar, hnum, sscanf_ju_digits tok hne hd]

/-- The empty string is no name token: it has no character that is not a
digit, so `Str2Uid` takes it for a number, `sscanf` finds none and
`assert(ret == 1)` fails. -/
theorem Rlist2UidList_empty_string :
    StringIsNumeric [] = true ∧ sscanf_ju [] = none ∧
    Str2Uid upstreamIds sampleDirectory [] (some []) true = none ∧
    Rlist2UidList upstreamIds sampleDirectory [[]] true = none := by
  decide

/-- C13: `"*"` and the non-empty all-digit tokens are resolved from the token
alone: the result is the same for any two directories, no call is made, `"*"`
gives `CF_SAME_OWNER` (`CF_SAME_GROUP`), and a number that fits the identity
type (itself no wider than `uintmax_t`) gives that number. -/
theorem Str2Uid_without_directory (I : IdEnv) (D₁ D₂ : Directory) (uc : Option CStr)
    (pp : Bool) :
    Str2Uid I D₁ "*".toList uc pp = some ⟨I.CF_SAME_OWNER, uc, []⟩ ∧
    Str2Gid I D₁ "*".toList uc pp = some ⟨I.CF_SAME_GROUP, uc, []⟩ ∧
    (∀ tok : CStr, tok ≠ [] → (∀ c ∈ tok, isdigit c = true) →
      Str2Uid I D₁ tok uc pp = Str2Uid I D₂ tok uc pp ∧
      Str2Gid I D₁ tok uc pp = Str2Gid I D₂ tok uc pp ∧
      (∃ r, Str2Uid I D₁ tok uc pp = some r ∧ r.calls = []) ∧
      (∃ r, Str2Gid I D₁ tok uc pp = some r ∧ r.calls = []) ∧
      (I.UID_MAX ≤ UINTMAX_MAX → decVal tok ≤ I.UID_MAX →
        Str2Uid I D₁ tok uc pp = some ⟨decVal tok, uc, []⟩) ∧
      (I.GID_MAX ≤ UINTMAX_MAX → decVal tok ≤ I.GID_MAX →
        Str2Gid I D₁ tok uc pp = some ⟨decVal tok, uc, []⟩)) := by
  refine ⟨by simp [Str2Uid], by simp [Str2Gid], ?_⟩
  intro tok hne hd
  have hu1 := Str2Uid_numeric I D₁ tok uc pp hne hd
  have hu2 := Str2Uid_numeric I D₂ tok uc pp hne hd
  have hg1 := Str2Gid_numeric I D₁ tok uc pp hne hd
  have hg2 := Str2Gid_numeric I D₂ tok uc pp hne hd
  refine ⟨by rw [hu1, hu2], by rw [hg1, hg2], ⟨_, hu1, rfl⟩, ⟨_, hg1, rfl⟩, ?_, ?_⟩
  · intro hw hfit
    rw [hu1, if_neg (by omega), Nat.mod_eq_of_lt (by omega)]
  · intro hw hfit
    rw [hg1, if_neg (by omega), Nat.mod_eq_of_lt (by omega)]

theorem Str2Uid_without_directory_witness :
    decVal "1000".toList = 1000 ∧
    Str2Uid upstreamIds sampleDirectory "1000".toList (some []) true =
      some ⟨decVal "1000".toList, some [], []⟩ ∧
    Str2Gid upstreamIds sampleDirectory "1000".toList (some []) true =
      some ⟨decVal "1000".toList, some [], []⟩ :=
  ⟨by decide,
   ((Str2Uid_without_directory upstreamIds sampleDirectory sampleDirectory (some []) true).2.2
      "1000".toList (by decide) (by decide)).2.2.2.2.1 (by decide) (by decide),
   ((Str2Uid_without_directory upstreamIds sampleDirectory sampleDirectory (some []) true).2.2
      "1000".toList (by decide) (by decide)).2.2.2.2.2 (by decide) (by decide)⟩

/-- A name that is no wildcard, no number and no netgroup and that the
directory does not know is recorded with the identity `CF_UNKNOWN_OWNER` and
with the empty string as its name: `Str2Uid` copies the name into the buffer
only when the lookup succeeds. -/
theorem Rlist2UidList_unknown (I : IdEnv) (D : Directory) (pp : Bool) (tok : CStr)
    (hstar : tok ≠ "*".toList) (hnum : StringIsNumeric tok = false)
    (hplus : tok.head? ≠ some '+') (hfail : D.GetUserID tok = none) :
    ∃ calls, Rlist2UidList I D [tok] pp = some ([⟨I.CF_UNKNOWN_OWNER, some []⟩], calls) := by
  have hstar' : tok ≠ ['*'] := hstar
  have hr : Str2Uid I D tok (some []) pp = some ⟨I.CF_UNKNOWN_OWNER, some [],
      [DirCall.GetUserID tok] ++ (if pp then [DirCall.PromiseRef] else [])⟩ := by
    simp [Str2Uid, hstar', hnum, hplus, hfail]
  refine ⟨[DirCall.GetUserID tok] ++ (if pp then [DirCall.PromiseRef] else []), ?_⟩
  simp only [Rlist2UidList, Rlist2UidList.loop, hr, AddSimpleUidItem]
  simp

/-- C14: at the name `zed`, unknown to the sample directory, the entries that
`Rlist2UidList` and `Rlist2GidList` append have the unknown identity and the
empty string, not `zed`, as their recorded name. -/
theorem Rlist2UidList_unknown_name :
    sampleDirectory.GetUserID "zed".toList = none ∧
    sampleDirectory.GetGroupID "zed".toList = none ∧
    Rlist2UidList upstreamIds sampleDirectory ["zed".toList] true =
      some ([⟨upstreamIds.CF_UNKNOWN_OWNER, some "".toList⟩],
        [DirCall.GetUserID "zed".toList, DirCall.PromiseRef]) ∧
    Rlist2GidList upstreamIds sampleDirectory ["zed".toList] true =
      some ([⟨upstreamIds.CF_UNKNOWN_GROUP, some "".toList⟩],
        [DirCall.GetGroupID "zed".toList, DirCall.PromiseRef]) := by
  decide

theorem Str2Uid_netgrent_stop (I : IdEnv) (D : Directory) (pp : Bool) (ts : List NetgrTriple)
    (uid : Nat) (uc : Option CStr) (calls : List DirCall) (h : uid ≠ I.CF_UNKNOWN_OWNER) :
    Str2Uid.netgrent I D pp ts uid uc calls = ⟨uid, uc, calls⟩ := by
  cases ts <;> simp [Str2Uid.netgrent, h]

theorem lookedUp_append (a b : List DirCall) : lookedUp (a ++ b) = lookedUp a ++ lookedUp b := by
  simp [lookedUp, List.filterMap_append]

theorem lookedUp_promiseRef (pp : Bool) :
    lookedUp (if pp then [DirCall.PromiseRef] else []) = [] := by
  cases pp <;> rfl

theorem Str2Uid_netgrent_found (I : IdEnv) (D : Directory) (pp : Bool) (t : NetgrTriple)
    (post : List NetgrTriple) (u : CStr) (found : Nat) (hu : t.user = some u)
    (hf : D.GetUserID u = some found) (hk : found ≠ I.CF_UNKNOWN_OWNER) :
    ∀ (pre : List NetgrTriple) (uc : Option CStr) (calls : List DirCall),
      (∀ x ∈ pre, resolvedId I D x = none) →
      ∃ made, Str2Uid.netgrent I D pp (pre ++ t :: post) I.CF_UNKNOWN_OWNER uc calls =
          ⟨found, uc.map (fun _ => u), made⟩ ∧
        lookedUp made = lookedUp calls ++ pre.filterMap (fun x => x.user) ++ [u] := by
  intro pre
  induction pre with
  | nil =>
    intro uc calls _
    refine ⟨calls ++ [DirCall.getnetgrent, DirCall.GetUserID u], ?_, ?_⟩
    · simp only [List.nil_append, Str2Uid.netgrent, if_true, hu, hf]
      exact Str2Uid_netgrent_stop I D pp post found _ _ hk
    · simp [lookedUp_append, lookedUp]
  | cons x pre ih =>
    intro uc calls hpre
    have hx := hpre x (List.mem_cons_self _ _)
    have hrest : ∀ y ∈ pre, resolvedId I D y = none := fun y hy => hpre y (List.mem_cons_of_mem _ hy)
    cases hxu : x.user with
    | none =>
      obtain ⟨made, hm, hl⟩ := ih uc (calls ++ [DirCall.getnetgrent]) hrest
      refine ⟨made, ?_, ?_⟩
      · simp only [List.cons_append, Str2Uid.netgrent, if_true, hxu]
        exact hm
      · rw [hl]; simp [lookedUp_append, lookedUp, hxu]
    | some v =>
      cases hv : D.GetUserID v with
      | none =>
        obtain ⟨made, hm, hl⟩ := ih uc (calls ++ [DirCall.getnetgrent, DirCall.GetUserID v] ++
          (if pp then [DirCall.PromiseRef] else [])) hrest
        refine ⟨made, ?_, ?_⟩
        · simp only [List.cons_append, Str2Uid.netgrent, if_true, hxu, hv]
          exact hm
        · rw [hl]
          simp [lookedUp_append, lookedUp_promiseRef, lookedUp, hxu]
      | some w =>
        have hw : w = I.CF_UNKNOWN_OWNER := by
          simp only [resolvedId, hxu, hv] at hx
          by_contra hne
          simp [hne] at hx
        obtain ⟨made, hm, hl⟩ := ih (uc.map (fun _ => v))
          (calls ++ [DirCall.getnetgrent, DirCall.GetUserID v]) hrest
        refine ⟨made, ?_, ?_⟩
        · simp only [List.cons_append, Str2Uid.netgrent, if_true, hxu, hv, hw]
          refine hm.trans ?_
          cases uc <;> rfl
        · rw [hl]
          simp [lookedUp_append, lookedUp, hxu]

theorem Str2Uid_netgrent_exhausted (I : IdEnv) (D : Directory) (pp : Bool) :
    ∀ (ts : List NetgrTriple) (uc : Option CStr) (calls : List DirCall),
      (∀ x ∈ ts, resolvedId I D x = none) →
      (Str2Uid.netgrent I D pp ts I.CF_UNKNOWN_OWNER uc calls).id = I.CF_UNKNOWN_OWNER := by
  intro ts
  induction ts with
  | nil => intro uc calls _; simp [Str2Uid.netgrent]
  | cons x ts ih =>
    intro uc calls hall
    have hx := hall x (List.mem_cons_self _ _)
    have hrest : ∀ y ∈ ts, resolvedId I D y = none := fun y hy => hall y (List.mem_cons_of_mem _ hy)
    cases hxu : x.user with
    | none =>
      simp only [Str2Uid.netgrent, if_true, hxu]
      exact ih _ _ hrest
    | some v =>
      cases hv : D.GetUserID v with
      | none =>
        simp only [Str2Uid.netgrent, if_true, hxu, hv]
        exact ih _ _ hrest
      | some w =>
        have hw : w = I.CF_UNKNOWN_OWNER := by
          simp only [resolvedId, hxu, hv] at hx
          by_contra hne
          simp [hne] at hx
        simp only [Str2Uid.netgrent, if_true, hxu, hv, hw]
        exact ih _ _ hrest

theorem Str2Uid_netgroup_branch (I : IdEnv) (D : Directory) (tok : CStr) (uc : Option CStr)
    (pp : Bool) (hplus : tok.head? = some '+') :
    Str2Uid I D tok uc pp =
      some ⟨(Str2Uid.netgrent I D pp
          (D.netgroup (if tok.get? 1 = some '@' then tok.drop 1 else tok)) I.CF_UNKNOWN_OWNER uc
          [DirCall.setnetgrent (if tok.get? 1 = some '@' then tok.drop 1 else tok)]).id,
        (Str2Uid.netgrent I D pp
          (D.netgroup (if tok.get? 1 = some '@' then tok.drop 1 else tok)) I.CF_UNKNOWN_OWNER uc
          [DirCall.setnetgrent (if tok.get? 1 = some '@' then tok.drop 1 else tok)]).copy,
        (Str2Uid.netgrent I D pp
          (D.netgroup (if tok.get? 1 = some '@' then tok.drop 1 else tok)) I.CF_UNKNOWN_OWNER uc
          [DirCall.setnetgrent (if tok.get? 1 = some '@' then tok.drop 1 else tok)]).calls ++
          [DirCall.endnetgrent]⟩ := by
  have hstar : tok ≠ ['*'] := by intro e; subst e; revert hplus; decide
  have hnum : StringIsNumeric tok = false := by
    cases tok with
    | nil => simp at hplus
    | cons c t =>
      simp only [List.head?_cons, Option.some.injEq] at hplus
      subst hplus
      simp [StringIsNumeric, isdigit]
  simp only [Str2Uid, String.toList, if_neg hstar, hnum, if_pos hplus]
  simp

/-- C15 (amended): for a token beginning with `+`, when `t` is the first entry
of the netgroup whose user is not `NULL` and resolves to an identity other
than `CF_UNKNOWN_OWNER`, `Str2Uid` returns that identity, leaves the name of
that user in the buffer, and has looked up the users of the entries before `t`
and of `t`, none after it; when the netgroup has no such entry it returns
`CF_UNKNOWN_OWNER`. -/
theorem Str2Uid_netgroup (I : IdEnv) (D : Directory) (tok : CStr) (uc : Option CStr)
    (pp : Bool) (hplus : tok.head? = some '+') :
    (∀ pre t post u found,
      D.netgroup (if tok.get? 1 = some '@' then tok.drop 1 else tok) = pre ++ t :: post →
      (∀ x ∈ pre, resolvedId I D x = none) →
      t.user = some u → D.GetUserID u = some found → found ≠ I.CF_UNKNOWN_OWNER →
      ∃ calls, Str2Uid I D tok uc pp = some ⟨found, uc.map (fun _ => u), calls⟩ ∧
        lookedUp calls = pre.filterMap (fun x => x.user) ++ [u]) ∧
    ((∀ x ∈ D.netgroup (if tok.get? 1 = some '@' then tok.drop 1 else tok),
        resolvedId I D x = none) →
      ∃ r, Str2Uid I D tok uc pp = some r ∧ r.id = I.CF_UNKNOWN_OWNER) := by
  rw [Str2Uid_netgroup_branch I D tok uc pp hplus]
  constructor
  · intro pre t post u found hsplit hpre hu hf hk
    obtain ⟨made, hm, hl⟩ := Str2Uid_netgrent_found I D pp t post u found hu hf hk pre uc
      [DirCall.setnetgrent (if tok.get? 1 = some '@' then tok.drop 1 else tok)] hpre
    rw [hsplit, hm]
    refine ⟨_, rfl, ?_⟩
    simp only [lookedUp_append, hl]
    simp [lookedUp]
  · intro hall
    exact ⟨_, rfl, Str2Uid_netgrent_exhausted I D pp _ uc _ hall⟩

theorem Str2Uid_netgroup_witness :
    ∃ calls, Str2Uid upstreamIds sampleDirectory "+admins".toList (some []) true =
        some ⟨1001, (some ([] : CStr)).map (fun _ => "bob".toList), calls⟩ ∧
      lookedUp calls =
        [(⟨none, none, none⟩ : NetgrTriple), ⟨none, some "carol".toList, none⟩].filterMap
          (fun x => x.user) ++ ["bob".toList] :=
  (Str2Uid_netgroup upstreamIds sampleDirectory "+admins".toList (some []) true (by decide)).1
    [⟨none, none, none⟩, ⟨none, some "carol".toList, none⟩] ⟨none, some "bob".toList, none⟩
    [⟨none, some "alice".toList, none⟩] "bob".toList 1001 (by decide) (by decide) (by decide)
    (by decide) (by decide)

/-- C15 as stated fails when a user resolves to the identity that serves as
`CF_UNKNOWN_OWNER`: in the netgroup `+guests` the first entry, `nobody`,
resolves (to `(uid_t) -2`), yet the loop goes on, looks up `alice` as well and
returns her identity and name. -/
theorem Str2Uid_netgroup_counterexample :
    "+guests".toList.head? = some '+' ∧
    sampleDirectory.netgroup "+guests".toList =
      [⟨none, some "nobody".toList, none⟩, ⟨none, some "alice".toList, none⟩] ∧
    sampleDirectory.GetUserID "nobody".toList = some 4294967294 ∧
    Str2Uid upstreamIds sampleDirectory "+guests".toList (some []) true =
      some ⟨1000, some "alice".toList,
        [DirCall.setnetgrent "+guests".toList, DirCall.getnetgrent,
         DirCall.GetUserID "nobody".toList, DirCall.getnetgrent,
         DirCall.GetUserID "alice".toList, DirCall.endnetgrent]⟩ := by
  decide

/-! ## `CommandArg0`: theorems -/

theorem take_length_takeWhile (p : Char → Bool) :
    ∀ l : CStr, l.take (l.takeWhile p).length = l.takeWhile p := by
  intro l
  induction l with
  | nil => rfl
  | cons c t ih =>
    cases hp : p c with
    | false => simp [List.takeWhile_cons, hp]
    | true => simp [List.takeWhile_cons, hp, ih]

theorem strchr_cut (c : Char) : ∀ s : CStr,
    CommandArg0.cut s (strchr s c) = s.takeWhile (fun x => x != c) := by
  intro s
  induction s with
  | nil => rfl
  | cons h t ih =>
    by_cases e : h = c
    · simp [strchr, e, List.takeWhile_cons, CommandArg0.cut]
    · have hne : (h != c) = true := by simpa using e
      simp only [strchr, if_neg e, List.takeWhile_cons, hne, if_true]
      cases hs : strchr t c with
      | none =>
        rw [hs] at ih
        simp only [CommandArg0.cut, Option.map_none'] at ih ⊢
        rw [← ih]
      | some n =>
        rw [hs] at ih
        simp only [CommandArg0.cut, Option.map_some', List.take_succ_cons] at ih ⊢
        rw [ih]

theorem firstArgument_scan (src : CStr) :
    (if src.head? = some '"' then src.drop 1 else src).takeWhile
      (fun x => x != (if src.head? = some '"' then '"' else ' ')) = firstArgument src := by
  cases src with
  | nil => rfl
  | cons c t =>
    by_cases h : c = '"'
    · subst h; simp [firstArgument]
    · simp [firstArgument, h]

/-- C21: when the first argument is shorter than `dst_size`,
`CommandArg0_bound` returns its length and leaves exactly that argument in
`dst`; for a source shorter than `CF_BUFSIZE` it is also the string that
`CommandArg0` returns. -/
theorem CommandArg0_bound_fits (SIZE_MAX : Nat) (dst src : CStr) (dst_size : Nat)
    (hlen : (firstArgument src).length < dst_size) :
    CommandArg0_bound SIZE_MAX dst src dst_size =
      ((firstArgument src).length, firstArgument src) ∧
    (∀ CF_BUFSIZE : Nat, src.length < CF_BUFSIZE →
      CommandArg0 CF_BUFSIZE src = firstArgument src ∧
      (CommandArg0_bound SIZE_MAX dst src dst_size).2 = CommandArg0 CF_BUFSIZE src) := by
  have e : CommandArg0_bound SIZE_MAX dst src dst_size =
      ((firstArgument src).length, firstArgument src) := by
    have ht := take_length_takeWhile
      (fun x => x != (if src.head? = some '"' then '"' else ' '))
      (if src.head? = some '"' then src.drop 1 else src)
    rw [firstArgument_scan] at ht
    simp only [CommandArg0_bound, CommandArg0_bound_scan, if_pos hlen, ht]
  refine ⟨e, ?_⟩
  intro CF_BUFSIZE hbuf
  have hstart : (if src.head? = some '"' then src.drop 1 else src).length ≤ CF_BUFSIZE - 1 := by
    split_ifs
    · simp only [List.length_drop]; omega
    · omega
  have hcopy : strlcpy [] (if src.head? = some '"' then src.drop 1 else src) CF_BUFSIZE =
      (if src.head? = some '"' then src.drop 1 else src) := by
    have h0 : CF_BUFSIZE ≠ 0 := by omega
    simp only [strlcpy, if_neg h0]
    exact List.take_of_length_le hstart
  have hc : CommandArg0 CF_BUFSIZE src = firstArgument src := by
    simp only [CommandArg0, hcopy, strchr_cut, firstArgument_scan]
  exact ⟨hc, by rw [e, hc]⟩

theorem CommandArg0_bound_fits_witness :
    CommandArg0_bound 4294967295 "old".toList "\"/bin/my prog\" -v".toList 64 =
      ((firstArgument "\"/bin/my prog\" -v".toList).length,
        firstArgument "\"/bin/my prog\" -v".toList) ∧
    firstArgument "\"/bin/my prog\" -v".toList = "/bin/my prog".toList ∧
    CommandArg0 4096 "\"/bin/my prog\" -v".toList = firstArgument "\"/bin/my prog\" -v".toList :=
  ⟨(CommandArg0_bound_fits 4294967295 "old".toList "\"/bin/my prog\" -v".toList 64
      (by decide)).1,
   by decide,
   ((CommandArg0_bound_fits 4294967295 "old".toList "\"/bin/my prog\" -v".toList 64
      (by decide)).2 4096 (by decide)).1⟩

/-! ## Netgroup names and trailing characters: theorems -/

theorem Str2Uid_netgrent_calls (I : IdEnv) (D : Directory) (pp : Bool) :
    ∀ (ts : List NetgrTriple) (uid : Nat) (uc : Option CStr) (calls : List DirCall),
      ∃ more, (Str2Uid.netgrent I D pp ts uid uc calls).calls = calls ++ more := by
  intro ts
  induction ts with
  | nil =>
    intro uid uc calls
    by_cases h : uid = I.CF_UNKNOWN_OWNER
    · exact ⟨[DirCall.getnetgrent], by simp [Str2Uid.netgrent, h]⟩
    · exact ⟨[], by simp [Str2Uid.netgrent, h]⟩
  | cons t ts ih =>
    intro uid uc calls
    by_cases h : uid = I.CF_UNKNOWN_OWNER
    · cases hu : t.user with
      | none =>
        obtain ⟨more, hm⟩ := ih uid uc (calls ++ [DirCall.getnetgrent])
        exact ⟨[DirCall.getnetgrent] ++ more, by
          simp only [Str2Uid.netgrent, if_pos h, hu]; rw [hm]; simp⟩
      | some v =>
        cases hv : D.GetUserID v with
        | none =>
          obtain ⟨more, hm⟩ := ih uid uc (calls ++ [DirCall.getnetgrent, DirCall.GetUserID v] ++
            (if pp then [DirCall.PromiseRef] else []))
          exact ⟨[DirCall.getnetgrent, DirCall.GetUserID v] ++
            (if pp then [DirCall.PromiseRef] else []) ++ more, by
            simp only [Str2Uid.netgrent, if_pos h, hu, hv]; rw [hm]; simp⟩
        | some w =>
          obtain ⟨more, hm⟩ := ih w (uc.map (fun _ => v))
            (calls ++ [DirCall.getnetgrent, DirCall.GetUserID v])
          exact ⟨[DirCall.getnetgrent, DirCall.GetUserID v] ++ more, by
            simp only [Str2Uid.netgrent, if_pos h, hu, hv]; rw [hm]; simp⟩
    · exact ⟨[], by simp [Str2Uid.netgrent, h]⟩

/-- C23: for every `g` the netgroup that `Str2Uid` opens for the token `+@g`
is `@g`: `uidbuff++` drops the `+` and keeps the `@`. In the sample directory
`+admins` opens the netgroup `+admins` and resolves to `bob`, while `+@admins`
opens `@admins` and resolves to nothing. -/
theorem Str2Uid_netgroup_name (I : IdEnv) (D : Directory) (g : CStr) (uc : Option CStr)
    (pp : Bool) :
    (∃ r more, Str2Uid I D ('+' :: '@' :: g) uc pp = some r ∧
      r.calls = DirCall.setnetgrent ('@' :: g) :: more) ∧
    (∃ r more, Str2Uid upstreamIds sampleDirectory "+admins".toList (some []) true = some r ∧
      r.id = 1001 ∧ r.calls = DirCall.setnetgrent "+admins".toList :: more) ∧
    (∃ r more, Str2Uid upstreamIds sampleDirectory "+@admins".toList (some []) true = some r ∧
      r.id = upstreamIds.CF_UNKNOWN_OWNER ∧
      r.calls = DirCall.setnetgrent "@admins".toList :: more) := by
  refine ⟨?_, ⟨_, _, rfl, rfl, rfl⟩, ⟨_, _, rfl, rfl, rfl⟩⟩
  rw [Str2Uid_netgroup_branch I D ('+' :: '@' :: g) uc pp rfl]
  obtain ⟨more, hm⟩ := Str2Uid_netgrent_calls I D pp (D.netgroup ('@' :: g)) I.CF_UNKNOWN_OWNER uc
    [DirCall.setnetgrent ('@' :: g)]
  refine ⟨_, more ++ [DirCall.endnetgrent], rfl, ?_⟩
  simp only [List.get?_cons_succ, List.get?_cons_zero, if_true, List.drop_succ_cons, List.drop_zero]
  rw [hm]; simp

theorem applyQuantifier_other (v : Int) (c : Char)
    (hc : c ∉ ['k', 'K', 'm', 'M', 'g', 'G', '%']) (hs : c ≠ ' ') :
    applyQuantifier v c = (some v, some LogLevel.LOG_LEVEL_VERBOSE) := by
  simp only [List.mem_cons, List.mem_singleton, List.not_mem_nil, or_false, not_or] at hc
  obtain ⟨h1, h2, h3, h4, h5, h6, h7⟩ := hc
  simp [applyQuantifier, h1, h2, h3, h4, h5, h6, h7, hs]

theorem IntFromStringLog_trailing (E : Env) (n : Int) (hn : n ≠ E.CF_NOINT) (hr : E.inLong n)
    (c : Char) (hd : isdigit c = false) :
    IntFromStringLog E (some (intText n ++ [c])) = afterSwitch E (applyQuantifier n c) := by
  obtain ⟨sg, ds, hs, hsg, hne, hdg, hval⟩ := intText_shape n
  have hL := inLong_LL hr
  have hsc := sscanf_lld_c_c_two [] sg ds [] c (by simp) hsg hne hdg hd (by simp)
  rw [hval, clamp_of_range hL.1 hL.2] at hsc
  have e : intText n ++ [c] = [] ++ (sg ++ (ds ++ [c])) := by simp [hs]
  rw [e, IntFromStringLog_ret2 E _ n c hsc hn]

/-- C24: for an integer `n` that fits a `long` and is not `CF_NOINT`, the text
of `n` followed by one space gives `n`, and followed by one character that is
no quantifier (`k K m M g G %`), no white space and no digit it gives `n`
unscaled, with a verbose message and no failure; `"10x"` gives 10. -/
theorem IntFromString_trailing (E : Env) (n : Int) (hn : n ≠ E.CF_NOINT) (hr : E.inLong n) :
    IntFromString E (some (intText n ++ [' '])) = n ∧
    (∀ c : Char, c ∉ ['k', 'K', 'm', 'M', 'g', 'G', '%'] → isspace c = false →
      isdigit c = false →
      IntFromStringLog E (some (intText n ++ [c])) = (n, [LogLevel.LOG_LEVEL_VERBOSE])) ∧
    (E.CF_NOINT ≠ 10 → E.inLong 10 → IntFromString E (some "10x".toList) = 10) := by
  have hgen : ∀ (m : Int), m ≠ E.CF_NOINT → E.inLong m → ∀ c : Char,
      c ∉ ['k', 'K', 'm', 'M', 'g', 'G', '%'] → isspace c = false → isdigit c = false →
      IntFromStringLog E (some (intText m ++ [c])) = (m, [LogLevel.LOG_LEVEL_VERBOSE]) := by
    intro m hm hmr c hc hsp hdg
    have hne : c ≠ ' ' := by intro e; subst e; revert hsp; decide
    rw [IntFromStringLog_trailing E m hm hmr c hdg, applyQuantifier_other m c hc hne]
    simp [afterSwitch, clampToLong_of_inLong hmr]
  refine ⟨?_, hgen n hn hr, ?_⟩
  · unfold IntFromString
    rw [IntFromStringLog_trailing E n hn hr ' ' (by decide)]
    simp [applyQuantifier, afterSwitch, clampToLong_of_inLong hr]
  · intro h10 hr10
    have := hgen 10 (Ne.symm h10) hr10 'x' (by decide) (by decide) (by decide)
    unfold IntFromString
    have e : "10x".toList = intText 10 ++ ['x'] := by decide
    rw [e, this]

theorem IntFromString_trailing_witness :
    (intText 10 ++ [' '] = "10 ".toList ∧
      IntFromString upstream (some (intText 10 ++ [' '])) = 10) ∧
    (intText (-7) ++ ['x'] = "-7x".toList ∧
      IntFromStringLog upstream (some (intText (-7) ++ ['x'])) =
        (-7, [LogLevel.LOG_LEVEL_VERBOSE])) :=
  ⟨⟨by decide, (IntFromString_trailing upstream 10 (by decide) (by decide)).1⟩,
   ⟨by decide, (IntFromString_trailing upstream (-7) (by decide) (by decide)).2.1 'x'
      (by decide) (by decide) (by decide)⟩⟩

/-! ## The value `CF_NOINT` as a literal, dates: theorems -/

theorem sscanf_lld_c_c_assigned (s : CStr) (v : Int) (rest : CStr) (c : Char) (t : CStr)
    (hd : s.dropWhile isspace = c :: t) (hs : scanInt LLONG_MIN LLONG_MAX s = some (v, rest)) :
    (sscanf_lld_c_c s).ll = some v ∧ 1 ≤ (sscanf_lld_c_c s).ret := by
  cases rest with
  | nil => simp [sscanf_lld_c_c, hd, hs]
  | cons q rest2 =>
    cases hr : rest2.dropWhile isspace <;> simp [sscanf_lld_c_c, hd, hs, hr]

theorem IntFromStringLog_noint (E : Env) (hfit : E.inLong E.CF_NOINT) (ws sg ds rest : CStr)
    (hws : ∀ c ∈ ws, isspace c = true) (hsg : IsSign sg) (hne : ds ≠ [])
    (hd : ∀ c ∈ ds, isdigit c = true) (hrest : ∀ c, rest.head? = some c → isdigit c = false)
    (hval : (if sg = ['-'] then -(decVal ds : Int) else (decVal ds : Int)) = E.CF_NOINT) :
    IntFromStringLog E (some (ws ++ (sg ++ (ds ++ rest)))) =
      (E.CF_NOINT, [if '$' ∈ ws ++ (sg ++ (ds ++ rest)) then LogLevel.LOG_LEVEL_VERBOSE
        else LogLevel.LOG_LEVEL_ERR]) := by
  have hL := inLong_LL hfit
  have hscan := scanInt_run LLONG_MIN LLONG_MAX ws sg ds rest hws hsg hne hd hrest
  rw [hval, clamp_of_range hL.1 hL.2] at hscan
  obtain ⟨c, t, hct⟩ := dropWhile_space_run ws sg ds rest hws hsg hne hd
  obtain ⟨hll, hret⟩ := sscanf_lld_c_c_assigned _ _ _ c t hct hscan
  obtain ⟨h1, h2⟩ := not_keyword_of_scanned _ hret
  simp only [IntFromStringLog, String.toList, if_neg h1, if_neg h2, hll,
    Option.getD_some, clampToLong_of_inLong hfit, or_true, if_true]

/-- C25: a token whose leading integer is `CF_NOINT` (white space, an optional
sign and digits of that value, then nothing or anything that does not begin
with a digit) takes the failure branch: one message is logged, and the value
returned is `CF_NOINT` itself, whatever follows the number; so the text of
`CF_NOINT` followed by `k` does not give `CF_NOINT` times 1000. `CF_NOINT` is
taken representable as a `long`. -/
theorem IntFromString_noint_literal (E : Env) (hfit : E.inLong E.CF_NOINT) (ws sg ds rest : CStr)
    (hws : ∀ c ∈ ws, isspace c = true) (hsg : IsSign sg) (hne : ds ≠ [])
    (hd : ∀ c ∈ ds, isdigit c = true) (hrest : ∀ c, rest.head? = some c → isdigit c = false)
    (hval : (if sg = ['-'] then -(decVal ds : Int) else (decVal ds : Int)) = E.CF_NOINT) :
    IntFromStringLog E (some (ws ++ (sg ++ (ds ++ rest)))) =
      (E.CF_NOINT, [if '$' ∈ ws ++ (sg ++ (ds ++ rest)) then LogLevel.LOG_LEVEL_VERBOSE
        else LogLevel.LOG_LEVEL_ERR]) ∧
    IntFromString E (some (ws ++ (sg ++ (ds ++ rest)))) = E.CF_NOINT ∧
    (E.CF_NOINT ≠ 0 →
      IntFromString E (some (intText E.CF_NOINT ++ ['k'])) ≠ E.CF_NOINT * 1000) := by
  have h0 := IntFromStringLog_noint E hfit ws sg ds rest hws hsg hne hd hrest hval
  refine ⟨h0, by unfold IntFromString; rw [h0], ?_⟩
  intro hz
  obtain ⟨sg2, ds2, hs2, hsg2, hne2, hd2, hval2⟩ := intText_shape E.CF_NOINT
  have hk := IntFromStringLog_noint E hfit [] sg2 ds2 ['k'] (by simp) hsg2 hne2 hd2
    (by intro c hc; simp at hc; rw [← hc]; decide) hval2
  have e : intText E.CF_NOINT ++ ['k'] = [] ++ (sg2 ++ (ds2 ++ ['k'])) := by simp [hs2]
  unfold IntFromString
  rw [e, hk]
  intro heq
  apply hz
  have : E.CF_NOINT * 999 = 0 := by linarith
  omega

theorem IntFromString_noint_literal_witness :
    ("".toList ++ ("-".toList ++ ("678".toList ++ "k".toList)) = "-678k".toList ∧
      IntFromString upstream (some ("".toList ++ ("-".toList ++ ("678".toList ++ "k".toList)))) =
        upstream.CF_NOINT) ∧
    (" ".toList ++ ("-".toList ++ ("0678".toList ++ " MB".toList)) = " -0678 MB".toList ∧
      IntFromString upstream
        (some (" ".toList ++ ("-".toList ++ ("0678".toList ++ " MB".toList)))) =
        upstream.CF_NOINT) :=
  ⟨⟨by decide, (IntFromString_noint_literal upstream (by decide) "".toList "-".toList
      "678".toList "k".toList (by decide) (Or.inr (Or.inl rfl)) (by decide) (by decide)
      (by decide) (by decide)).2.1⟩,
   ⟨by decide, (IntFromString_noint_literal upstream (by decide) " ".toList "-".toList
      "0678".toList " MB".toList (by decide) (Or.inr (Or.inl rfl)) (by decide) (by decide)
      (by decide) (by decide)).2.1⟩⟩

/-- C26: `bigger = "1 Jan 2011"` is later than `smaller = "1 Dec 2010"` by its
year, yet `CoarseLaterThan` returns false: the months are compared, 1 against
12, without regard to the years. A date later by its year with no smaller
month, `"15 Mar 2011"` against `"20 Mar 2010"`, gives true. -/
theorem CoarseLaterThan_later_year :
    sscanf_d_s_d upstream "1 Jan 2011".toList = (some 1, some "Jan".toList, some 2011) ∧
    sscanf_d_s_d upstream "1 Dec 2010".toList = (some 1, some "Dec".toList, some 2010) ∧
    Month2Int upstreamMonths (some "Jan".toList) = 1 ∧
    Month2Int upstreamMonths (some "Dec".toList) = 12 ∧
    CoarseLaterThan upstream upstreamMonths "1 Jan 2011".toList "1 Dec 2010".toList =
      some false ∧
    CoarseLaterThan upstream32 upstreamMonths "1 Jan 2011".toList "1 Dec 2010".toList =
      some false ∧
    CoarseLaterThan upstream upstreamMonths "15 Mar 2011".toList "20 Mar 2010".toList =
      some true := by
  decide

/-! ## `DoubleFromString`: theorems -/

/-- The integer `roundHalfEven num den` is at most one half away from
`num / den`, and it is even when it is exactly one half away. -/
theorem roundHalfEven_nearest (num den : Nat) (hden : 0 < den) :
    2 * num ≤ 2 * (den * roundHalfEven num den) + den ∧
    2 * (den * roundHalfEven num den) ≤ 2 * num + den ∧
    ((2 * num = 2 * (den * roundHalfEven num den) + den ∨
        2 * (den * roundHalfEven num den) = 2 * num + den) →
      roundHalfEven num den % 2 = 0) := by
  have hdm := Nat.div_add_mod num den
  have hlt := Nat.mod_lt num hden
  have hs : den * (num / den + 1) = den * (num / den) + den := by ring
  unfold roundHalfEven
  simp only []
  split_ifs with h1 h2 h3
  · omega
  · rw [hs]; omega
  · omega
  · rw [hs]; omega

theorem startsAside_digits (ds rest : CStr) (hne : ds ≠ []) (hd : ∀ c ∈ ds, isdigit c = true)
    (hx : rest.head? ≠ some 'x') (hX : rest.head? ≠ some 'X') :
    startsAside (ds ++ rest) = false := by
  cases ds with
  | nil => exact absurd rfl hne
  | cons d t =>
    have hdd : isdigit d = true := hd d (List.mem_cons_self _ _)
    have h1 : d ≠ 'i' := by intro e; subst e; revert hdd; decide
    have h2 : d ≠ 'I' := by intro e; subst e; revert hdd; decide
    have h3 : d ≠ 'n' := by intro e; subst e; revert hdd; decide
    have h4 : d ≠ 'N' := by intro e; subst e; revert hdd; decide
    have h5 : (t ++ rest).head? ≠ some 'x' ∧ (t ++ rest).head? ≠ some 'X' := by
      cases t with
      | nil => exact ⟨by simpa using hx, by simpa using hX⟩
      | cons e _ =>
        have he : isdigit e = true := hd e (by simp)
        constructor
        · intro h
          have : e = 'x' := by simpa using h
          subst this; revert he; decide
        · intro h
          have : e = 'X' := by simpa using h
          subst this; revert he; decide
    show startsAside (d :: (t ++ rest)) = false
    generalize t ++ rest = u at h5
    simp [startsAside, h1, h2, h3, h4, h5.1, h5.2]

theorem scanFraction_run (frac : Option CStr) (c : Char) (tail : CStr)
    (hf : ∀ x ∈ frac.getD [], isdigit x = true)
    (hc : isdigit c = false) (hdot : c ≠ '.') :
    scanFraction (fractionText frac ++ c :: tail) = (frac.getD [], c :: tail) := by
  cases frac with
  | none =>
    simp only [fractionText, List.nil_append, Option.getD_none]
    unfold scanFraction
    split
    · rename_i heq; exact absurd (List.cons.inj heq).1 hdot
    · rfl
  | some fr =>
    obtain ⟨h1, h2⟩ := takeWhile_run fr (c :: tail) hf
      (by intro x hx; simp at hx; subst hx; exact hc)
    simp [fractionText, scanFraction, h1, h2]

theorem scanExponent_none (c : Char) (tail : CStr) (he : c ≠ 'e') (hE : c ≠ 'E') :
    scanExponent (c :: tail) = some (0, c :: tail) := by
  simp [scanExponent, he, hE]

theorem fractionText_head (frac : Option CStr) (c : Char) (tail : CStr) :
    (fractionText frac ++ c :: tail).head? = some c ∨
    (fractionText frac ++ c :: tail).head? = some '.' := by
  cases frac with
  | none => left; rfl
  | some fr => right; rfl

theorem scanDouble_decimal (sg ints : CStr) (frac : Option CStr) (c : Char) (tail : CStr)
    (hsg : IsSign sg) (hne : ints ≠ []) (hd : ∀ x ∈ ints, isdigit x = true)
    (hf : ∀ x ∈ frac.getD [], isdigit x = true)
    (hc : isdigit c = false) (hdot : c ≠ '.') (he : c ≠ 'e') (hE : c ≠ 'E')
    (hx : c ≠ 'x') (hX : c ≠ 'X') :
    scanDouble (decimalText sg ints frac ++ c :: tail) =
      ScanLf.value (decimalDouble sg ints frac) (c :: tail) := by
  have hshape : decimalText sg ints frac ++ c :: tail =
      sg ++ (ints ++ (fractionText frac ++ c :: tail)) := by
    simp [decimalText]
  obtain ⟨hs1, hs2⟩ := scanSign_run sg ints (fractionText frac ++ c :: tail) hsg hne hd
  have hhead : ∀ y, (fractionText frac ++ c :: tail).head? = some y → isdigit y = false := by
    intro y hy
    rcases fractionText_head frac c tail with h | h <;> rw [h] at hy <;>
      cases hy
    · exact hc
    · decide
  obtain ⟨ht1, ht2⟩ := takeWhile_run ints _ hd hhead
  have haside := startsAside_digits ints (fractionText frac ++ c :: tail) hne hd
      (by rcases fractionText_head frac c tail with h | h <;> rw [h]
          · intro e; exact hx (Option.some.inj e)
          · decide)
      (by rcases fractionText_head frac c tail with h | h <;> rw [h]
          · intro e; exact hX (Option.some.inj e)
          · decide)
  have hfr := scanFraction_run frac c tail hf hc hdot
  have hemp : ints.isEmpty = false := by
    cases ints with
    | nil => exact absurd rfl hne
    | cons _ _ => rfl
  rw [hshape]
  unfold scanDouble
  simp only [hs2, hs1, haside, ht1, ht2, hfr, hemp, scanExponent_none c tail he hE]
  simp [decimalDouble]

theorem sscanf_lf_c_c_two (sg ints : CStr) (frac : Option CStr) (c : Char)
    (hsg : IsSign sg) (hne : ints ≠ []) (hd : ∀ x ∈ ints, isdigit x = true)
    (hf : ∀ x ∈ frac.getD [], isdigit x = true)
    (hc : isdigit c = false) (hdot : c ≠ '.') (he : c ≠ 'e') (hE : c ≠ 'E')
    (hx : c ≠ 'x') (hX : c ≠ 'X') :
    sscanf_lf_c_c (decimalText sg ints frac ++ [c]) =
      some ⟨2, some (decimalDouble sg ints frac), some c, none⟩ := by
  unfold sscanf_lf_c_c
  rw [scanDouble_decimal sg ints frac c [] hsg hne hd hf hc hdot he hE hx hX]
  simp

theorem DoubleFromString_quantified (sg ints : CStr) (frac : Option CStr) (c : Char) (v : Dbl)
    (hsg : IsSign sg) (hne : ints ≠ []) (hd : ∀ x ∈ ints, isdigit x = true)
    (hf : ∀ x ∈ frac.getD [], isdigit x = true)
    (hc : isdigit c = false) (hdot : c ≠ '.') (he : c ≠ 'e') (hE : c ≠ 'E')
    (hx : c ≠ 'x') (hX : c ≠ 'X') :
    (applyDoubleQuantifier (decimalDouble sg ints frac) c = none →
      DoubleFromString (decimalText sg ints frac ++ [c]) v = some (false, v)) ∧
    (∀ d2, applyDoubleQuantifier (decimalDouble sg ints frac) c = some d2 →
      DoubleFromString (decimalText sg ints frac ++ [c]) v = some (true, d2)) := by
  have hsc := sscanf_lf_c_c_two sg ints frac c hsg hne hd hf hc hdot he hE hx hX
  constructor
  · intro h
    unfold DoubleFromString
    rw [hsc]
    simp [h]
  · intro d2 h
    unfold DoubleFromString
    rw [hsc]
    simp [h]

theorem applyDoubleQuantifier_scaled {q : Char} {m : Int} (h : specMultiplier q = some m)
    (d : Dbl) : applyDoubleQuantifier d q = some (d.mulNat m.toNat) := by
  rcases specMultiplier_cases h with ⟨e, e2⟩ | ⟨e, e2⟩ | ⟨e, e2⟩ | ⟨e, e2⟩ | ⟨e, e2⟩ | ⟨e, e2⟩ <;>
    subst e <;> subst e2 <;> simp [applyDoubleQuantifier]

theorem specMultiplier_char {q : Char} {m : Int} (h : specMultiplier q = some m) :
    isdigit q = false ∧ q ≠ '.' ∧ q ≠ 'e' ∧ q ≠ 'E' ∧ q ≠ 'x' ∧ q ≠ 'X' := by
  rcases specMultiplier_cases h with ⟨e, _⟩ | ⟨e, _⟩ | ⟨e, _⟩ | ⟨e, _⟩ | ⟨e, _⟩ | ⟨e, _⟩ <;>
    subst e <;> decide


theorem sscanf_lf_c_c_fields (s : CStr) (sc : ScanD) (h : sscanf_lf_c_c s = some sc) :
    (sc.ret = 0 ∨ sc.ret = 1 ∨ sc.ret = 2 ∨ sc.ret = 3) ∧
    (1 ≤ sc.ret → sc.d ≠ none) ∧ (2 ≤ sc.ret → sc.quantifier ≠ none) := by
  unfold sscanf_lf_c_c at h
  split at h
  · cases h
  · cases h; simp
  · split at h
    · cases h; simp
    · split at h <;> cases h <;> simp


/-- C22 (amended): let `d` be the `double` that `%lf` assigns for a decimal
literal `N` (an optional sign, digits, optionally a point and digits), the
`double` nearest to `N`. `DoubleFromString` applied to the text of `N` followed
by `%` returns true with `*value_out = -d` if and only if `0 <= d <= 100`; for
`d` outside `[0, 100]` it returns false and leaves `*value_out` as it was; and
followed by one of `k K m M g G` it returns true with the `double` product of
`d` and the multiplier, whatever its size. The test is on `d`, not on `N`. -/
theorem DoubleFromString_percent (sg ints : CStr) (frac : Option CStr) (v : Dbl)
    (hsg : IsSign sg) (hne : ints ≠ []) (hd : ∀ c ∈ ints, isdigit c = true)
    (hf : ∀ c ∈ frac.getD [], isdigit c = true) :
    (DoubleFromString (decimalText sg ints frac ++ ['%']) v =
        some (true, (decimalDouble sg ints frac).neg) ↔
      (decimalDouble sg ints frac).ltZero = false ∧
        (decimalDouble sg ints frac).gtHundred = false) ∧
    ((decimalDouble sg ints frac).ltZero = true ∨
        (decimalDouble sg ints frac).gtHundred = true →
      DoubleFromString (decimalText sg ints frac ++ ['%']) v = some (false, v)) ∧
    (∀ q m, specMultiplier q = some m →
      DoubleFromString (decimalText sg ints frac ++ [q]) v =
        some (true, (decimalDouble sg ints frac).mulNat m.toNat)) := by
  obtain ⟨hno, hyes⟩ := DoubleFromString_quantified sg ints frac '%' v hsg hne hd hf
    (by decide) (by decide) (by decide) (by decide) (by decide) (by decide)
  have hout : (decimalDouble sg ints frac).ltZero = true ∨
      (decimalDouble sg ints frac).gtHundred = true →
      DoubleFromString (decimalText sg ints frac ++ ['%']) v = some (false, v) := by
    intro h
    exact hno (by simp [applyDoubleQuantifier, h])
  refine ⟨⟨?_, ?_⟩, hout, ?_⟩
  · intro h
    by_contra hc
    have hor : (decimalDouble sg ints frac).ltZero = true ∨
        (decimalDouble sg ints frac).gtHundred = true := by
      cases h1 : (decimalDouble sg ints frac).ltZero
      · cases h2 : (decimalDouble sg ints frac).gtHundred
        · exact absurd ⟨h1, h2⟩ hc
        · exact Or.inr rfl
      · exact Or.inl rfl
    rw [hout hor] at h
    simp at h
  · rintro ⟨h1, h2⟩
    exact hyes _ (by simp [applyDoubleQuantifier, h1, h2])
  · intro q m hq
    obtain ⟨c1, c2, c3, c4, c5, c6⟩ := specMultiplier_char hq
    exact (DoubleFromString_quantified sg ints frac q v hsg hne hd hf c1 c2 c3 c4 c5 c6).2 _
      (applyDoubleQuantifier_scaled hq _)

set_option maxRecDepth 10000 in
theorem DoubleFromString_percent_witness :
    (decimalText [] "42".toList (some "5".toList) ++ ['%'] = "42.5%".toList ∧
      decimalDouble [] "42".toList (some "5".toList) = Dbl.fin false 5981343255101440 1027 ∧
      DoubleFromString (decimalText [] "42".toList (some "5".toList) ++ ['%']) (Dbl.fin false 0 0) =
        some (true, (decimalDouble [] "42".toList (some "5".toList)).neg)) ∧
    (decimalText [] "150".toList none ++ ['%'] = "150%".toList ∧
      DoubleFromString (decimalText [] "150".toList none ++ ['%']) (Dbl.fin false 0 0) =
        some (false, Dbl.fin false 0 0)) ∧
    (decimalText ['-'] "2".toList none ++ ['G'] = "-2G".toList ∧
      (decimalDouble ['-'] "2".toList none).mulNat (1073741824 : Int).toNat =
        Dbl.fin true 4503599627370496 1053 ∧
      DoubleFromString (decimalText ['-'] "2".toList none ++ ['G']) (Dbl.fin false 0 0) =
        some (true, (decimalDouble ['-'] "2".toList none).mulNat (1073741824 : Int).toNat)) :=
  ⟨⟨by decide, by decide,
      (DoubleFromString_percent [] "42".toList (some "5".toList) (Dbl.fin false 0 0)
        (Or.inl rfl) (by decide) (by decide) (by decide)).1.2 (by decide)⟩,
   ⟨by decide,
      (DoubleFromString_percent [] "150".toList none (Dbl.fin false 0 0)
        (Or.inl rfl) (by decide) (by decide) (by decide)).2.1 (by decide)⟩,
   ⟨by decide, by decide,
      (DoubleFromString_percent ['-'] "2".toList none (Dbl.fin false 0 0)
        (Or.inr (Or.inl rfl)) (by decide) (by decide) (by decide)).2.2 'G' 1073741824
          (by decide)⟩⟩

/-- C22 as stated fails at `"100.00000000000000001%"`: the literal is greater
than 100, yet `%lf` rounds it to the `double` 100, the test `d > 100` is
false, and the call returns true and writes -100 over the value 0 of
`*value_out`, as it does for `"100%"`. -/
theorem DoubleFromString_percent_counterexample :
    (100 : ℚ) < 10000000000000000001 / 10 ^ 17 ∧
    decimalText [] "100".toList (some "00000000000000001".toList) ++ ['%'] =
      "100.00000000000000001%".toList ∧
    decimalDouble [] "100".toList (some "00000000000000001".toList) =
      decimalDouble [] "100".toList none ∧
    DoubleFromString "100.00000000000000001%".toList (Dbl.fin false 0 0) =
      some (true, Dbl.fin true 7036874417766400 1028) ∧
    DoubleFromString "100%".toList (Dbl.fin false 0 0) =
      some (true, Dbl.fin true 7036874417766400 1028) ∧
    Dbl.units (Dbl.fin true 7036874417766400 1028) = some (-100 * 2 ^ 1074) := by
  refine ⟨by norm_num, by decide, by decide, by decide, by decide, ?_⟩
  simp only [Dbl.units, if_true, Option.some.injEq]
  norm_num

/-- The test of the percentage is a test of the `double`: the next `double`
above 100 is refused and `*value_out` keeps its value, and so is every
negative one. -/
theorem DoubleFromString_percent_refused :
    DoubleFromString "100.00000000000002%".toList (Dbl.fin false 7 0) =
      some (false, Dbl.fin false 7 0) ∧
    DoubleFromString "-0.5%".toList (Dbl.fin false 7 0) = some (false, Dbl.fin false 7 0) ∧
    DoubleFromString "1000%".toList (Dbl.fin false 7 0) = some (false, Dbl.fin false 7 0) := by
  decide

set_option maxRecDepth 10000 in
/-- Values of the rounding that are known from the format: 0.1 is
`0x1999999999999A * 2 ^ (-56)`, 1 is `2 ^ 52 * 2 ^ (-52)`, and
`2 ^ 53 + 1`, half way between two neighbours, goes to the even one. -/
theorem decimalDouble_values :
    decimalDouble [] "0".toList (some "1".toList) = Dbl.fin false 0x1999999999999A 1018 ∧
    decimalDouble [] "1".toList none = Dbl.fin false (2 ^ 52) 1022 ∧
    decimalDouble ['-'] "9007199254740993".toList none = Dbl.fin true (2 ^ 52) 1075 ∧
    decimalDouble [] "9007199254740995".toList none = Dbl.fin false (2 ^ 52 + 2) 1075 := by
  decide

set_option maxRecDepth 10000 in
set_option exponentiation.threshold 3000 in
/-- For the integers 0 to 100 the rounding is exact: `DoubleFromString`
applied to the digits of `n` followed by `%` returns true and writes the
`double` whose value is `-n`. -/
theorem DoubleFromString_percent_integers :
    ∀ n, n ≤ 100 →
      (DoubleFromString (Nat.toDigits 10 n ++ ['%']) (Dbl.fin false 7 0)).map
        (fun r => (r.1, r.2.units)) = some (true, some (-((n * 2 ^ 1074 : Nat) : Int))) := by
  decide

end Conversion
